import Mathlib

/-!
ALPS touchpad driver (`VoodooPS2Trackpad/alps.h`): numeric filters and SS4 packet fields.

A shallow embedding of the filter templates `SimpleAverage`, `DecayingAverage` and
`UndecayAverage` and of the SS4 (protocol V8) bit-field extraction macros, together with
the properties of them that the design document states.

Conventions of the embedding.

* A C integer value is a mathematical integer (`Int`); every place where the C code converts
  a value to a fixed-width type is an explicit `CIntType.wrap` (reduction modulo `2 ^ bits`
  into the range of the type).  Signed overflow is thereby given its two's-complement meaning.
* An object is a structure of its data members, a member function is a function from the
  object (and the arguments) to the new object and the returned value.
* The array member `m_buffer` is a map from index to stored value.  The constructor does not
  initialise it, so a constructed object starts from arbitrary memory contents.
* A packet is `unsigned char[6]`: six bytes, each below 256.
-/

namespace Alps

/-! ## C integer types -/

/-- An integral C type: its width in bits and its signedness. -/
structure CIntType where
  bits : Nat
  signed : Bool
deriving DecidableEq

/-- The type `int`. -/
def cInt : CIntType := ⟨32, true⟩

/-- The type `int64_t`. -/
def cInt64 : CIntType := ⟨64, true⟩

/-- The type `uint64_t`. -/
def cUInt64 : CIntType := ⟨64, false⟩

/-- Conversion of an integer value to the C type `t`: the unique value of the type that is
congruent to `z` modulo `2 ^ bits`. -/
def CIntType.wrap (t : CIntType) (z : Int) : Int :=
  if t.signed then (z + 2 ^ (t.bits - 1)) % 2 ^ t.bits - 2 ^ (t.bits - 1)
  else z % 2 ^ t.bits

/-- The value `z` is representable in the C type `t`. -/
def CIntType.inRange (t : CIntType) (z : Int) : Prop :=
  if t.signed then -(2 ^ (t.bits - 1)) ≤ z ∧ z < 2 ^ (t.bits - 1)
  else 0 ≤ z ∧ z < 2 ^ t.bits

instance (t : CIntType) (z : Int) : Decidable (t.inRange z) := by
  unfold CIntType.inRange
  infer_instance

/-! ## `template <class T, int N> class SimpleAverage` -/

/-- The data members of `SimpleAverage<T, N>`:
`T m_buffer[N]; int m_count; int m_sum; int m_index;`. -/
structure SimpleAverage where
  m_buffer : Int → Int
  m_count : Int
  m_sum : Int
  m_index : Int

namespace SimpleAverage

/-- Member function `inline void reset()`: clears count, sum and index; the buffer is left
as it is. -/
def reset (s : SimpleAverage) : SimpleAverage :=
  { s with m_count := 0, m_sum := 0, m_index := 0 }

/-- Constructor `inline SimpleAverage() { reset(); }`: the members hold arbitrary memory
`mem` when the constructor body runs. -/
def construct (mem : SimpleAverage) : SimpleAverage :=
  reset mem

/-- Member function `T filter(T data)`.  The accumulator `m_sum` is an `int` whatever `T`
is: each compound assignment converts its result to `int`; the quotient `m_sum / m_count` is
an `int` division (truncating toward zero), converted to `T` for the return. -/
def filter (T : CIntType) (N : Nat) (s : SimpleAverage) (data : Int) : SimpleAverage × Int :=
  -- m_sum += data;
  let sum1 := cInt.wrap (s.m_sum + data)
  -- if (m_count == N) m_sum -= m_buffer[m_index];
  let sum2 := if s.m_count = (N : Int) then cInt.wrap (sum1 - s.m_buffer s.m_index) else sum1
  -- m_buffer[m_index] = data;
  let buf := Function.update s.m_buffer s.m_index data
  -- if (++m_index >= N) m_index = 0;
  let idx := if s.m_index + 1 ≥ (N : Int) then 0 else s.m_index + 1
  -- if (m_count < N) ++m_count;
  let cnt := if s.m_count < (N : Int) then s.m_count + 1 else s.m_count
  -- return m_sum / m_count;
  ({ m_buffer := buf, m_count := cnt, m_sum := sum2, m_index := idx },
    T.wrap (Int.tdiv sum2 cnt))

/-- Member function `inline int count() const`. -/
def count (s : SimpleAverage) : Int := s.m_count

/-- Member function `inline int sum() const`. -/
def sum (s : SimpleAverage) : Int := s.m_sum

/-- Member function `T oldest() const`. -/
def oldest (N : Nat) (s : SimpleAverage) : Int :=
  if s.m_count = 0 then 0
  else if s.m_count < (N : Int) then s.m_buffer 0
  else s.m_buffer s.m_index

/-- Member function `T newest() const`. -/
def newest (s : SimpleAverage) : Int :=
  if s.m_count = 0 then 0
  else
    -- int index = m_index; if (--index < 0) index = m_count-1;
    let index := s.m_index - 1
    let index := if index < 0 then s.m_count - 1 else index
    s.m_buffer index

/-- Member function `T average() const`. -/
def average (T : CIntType) (s : SimpleAverage) : Int :=
  if s.m_count = 0 then 0
  else T.wrap (Int.tdiv s.m_sum s.m_count)

/-- The object after the calls `filter(x)` for the samples `x` of `xs`, in order. -/
def feed (T : CIntType) (N : Nat) (s : SimpleAverage) (xs : List Int) : SimpleAverage :=
  xs.foldl (fun st x => (filter T N st x).1) s

end SimpleAverage

/-! ## Arithmetic in a C type -/

/-- Value of `a * b` computed in the type `t`. -/
def CIntType.mul (t : CIntType) (a b : Int) : Int := t.wrap (a * b)

/-- Value of `a / b` computed in the type `t`: the quotient truncated toward zero. -/
def CIntType.div (t : CIntType) (a b : Int) : Int := t.wrap (Int.tdiv a b)

/-- Value of `a + b` computed in the type `t`. -/
def CIntType.add (t : CIntType) (a b : Int) : Int := t.wrap (a + b)

/-- Value of `a - b` computed in the type `t`. -/
def CIntType.sub (t : CIntType) (a b : Int) : Int := t.wrap (a - b)

/-! ## `template <class T, class TT, int N1, int N2, int D> class DecayingAverage` -/

/-- The data members of `DecayingAverage`: `T m_last; bool m_lastvalid;`. -/
structure DecayingAverage where
  m_last : Int
  m_lastvalid : Bool
deriving DecidableEq

namespace DecayingAverage

/-- Member function `inline void reset()`. -/
def reset (s : DecayingAverage) : DecayingAverage :=
  { s with m_lastvalid := false }

/-- Constructor `inline DecayingAverage() { reset(); }`, run on arbitrary memory `mem`. -/
def construct (mem : DecayingAverage) : DecayingAverage :=
  reset mem

/-- Member function `T filter(T data, int fingers)`.  The arithmetic is done in `TT`, a type
at least as wide as `int` (the `int` template arguments are converted to `TT`); the result is
converted to `T`. -/
def filter (T TT : CIntType) (N1 N2 D : Int) (s : DecayingAverage) (data : Int)
    (_fingers : Int) : DecayingAverage × Int :=
  -- TT result = data; TT last = m_last;
  let result := TT.wrap data
  let last := TT.wrap s.m_last
  -- if (m_lastvalid) result = (result * N1) / D + (last * N2) / D;
  let result :=
    if s.m_lastvalid then
      TT.add (TT.div (TT.mul result (TT.wrap N1)) (TT.wrap D))
        (TT.div (TT.mul last (TT.wrap N2)) (TT.wrap D))
    else result
  -- m_lastvalid = true; m_last = (T)result; return m_last;
  let m_last := T.wrap result
  ({ m_last := m_last, m_lastvalid := true }, m_last)

/-- The values returned by the calls `filter(x, f)` for the pairs `(x, f)` of `xs`, in
order. -/
def outputs (T TT : CIntType) (N1 N2 D : Int) (s : DecayingAverage) :
    List (Int × Int) → List Int
  | [] => []
  | xf :: rest =>
    (filter T TT N1 N2 D s xf.1 xf.2).2 ::
      outputs T TT N1 N2 D (filter T TT N1 N2 D s xf.1 xf.2).1 rest

end DecayingAverage

/-! ## `template <class T, class TT, int N1, int N2, int D> class UndecayAverage` -/

/-- The data members of `UndecayAverage`: `T m_last; bool m_lastvalid;`. -/
structure UndecayAverage where
  m_last : Int
  m_lastvalid : Bool
deriving DecidableEq

namespace UndecayAverage

/-- Member function `inline void reset()`. -/
def reset (s : UndecayAverage) : UndecayAverage :=
  { s with m_lastvalid := false }

/-- Constructor `inline UndecayAverage() { reset(); }`, run on arbitrary memory `mem`. -/
def construct (mem : UndecayAverage) : UndecayAverage :=
  reset mem

/-- Member function `T filter(T data)`.  The arithmetic is done in `TT`, a type at least as
wide as `int`; the stored value is the argument, the returned value is the result converted
to `T`. -/
def filter (T TT : CIntType) (N1 N2 D : Int) (s : UndecayAverage) (data : Int) :
    UndecayAverage × Int :=
  -- TT result = data; TT last = m_last;
  let result := TT.wrap data
  let last := TT.wrap s.m_last
  -- if (m_lastvalid) result = (result * D) / N1 - (last * N2) / N1;
  let result :=
    if s.m_lastvalid then
      TT.sub (TT.div (TT.mul result (TT.wrap D)) (TT.wrap N1))
        (TT.div (TT.mul last (TT.wrap N2)) (TT.wrap N1))
    else result
  -- m_lastvalid = true; m_last = (T)data; return (T)result;
  ({ m_last := T.wrap data, m_lastvalid := true }, T.wrap result)

/-- The values returned by the calls `filter(y)` for the values `y` of `ys`, in order. -/
def outputs (T TT : CIntType) (N1 N2 D : Int) (s : UndecayAverage) : List Int → List Int
  | [] => []
  | y :: rest =>
    (filter T TT N1 N2 D s y).2 :: outputs T TT N1 N2 D (filter T TT N1 N2 D s y).1 rest

end UndecayAverage

/-! ## SS4 (protocol V8) packets -/

/-- A byte (`unsigned char`). -/
abbrev Byte := Fin 256

/-- A six-byte packet `unsigned char _b[6]`. -/
structure Packet where
  b0 : Byte
  b1 : Byte
  b2 : Byte
  b3 : Byte
  b4 : Byte
  b5 : Byte
deriving DecidableEq

/-- The byte `_b[i]` of a packet, promoted to `int`; the packet has the indices 0 to 5. -/
def Packet.get (b : Packet) : Nat → Nat
  | 0 => b.b0.val
  | 1 => b.b1.val
  | 2 => b.b2.val
  | 3 => b.b3.val
  | 4 => b.b4.val
  | 5 => b.b5.val
  | _ => 0

/-- Macro `#define SS4_MASK_NORMAL_BUTTONS 0x07`. -/
def SS4_MASK_NORMAL_BUTTONS : Nat := 0x07

/-- Macro `#define SS4_IS_IDLE_V2(_b)`. -/
def SS4_IS_IDLE_V2 (b : Packet) : Bool :=
  (b.get 0 == 0x18) &&
  (b.get 1 == 0x10) &&
  (b.get 2 == 0x00) &&
  ((b.get 3 &&& 0x88) == 0x08) &&
  (b.get 4 == 0x10) &&
  (b.get 5 == 0x00)

/-- Macro `#define SS4_1F_X_V2(_b)`. -/
def SS4_1F_X_V2 (b : Packet) : Nat :=
  ((b.get 0) &&& 0x0007) |||
  (((b.get 1) <<< 3) &&& 0x0078) |||
  (((b.get 1) <<< 2) &&& 0x0380) |||
  (((b.get 2) <<< 5) &&& 0x1C00)

/-- Macro `#define SS4_1F_Y_V2(_b)`. -/
def SS4_1F_Y_V2 (b : Packet) : Nat :=
  ((b.get 2) &&& 0x000F) |||
  (((b.get 3) >>> 2) &&& 0x0030) |||
  (((b.get 4) <<< 6) &&& 0x03C0) |||
  (((b.get 4) <<< 5) &&& 0x0C00)

/-- Macro `#define SS4_1F_Z_V2(_b)`. -/
def SS4_1F_Z_V2 (b : Packet) : Nat :=
  ((b.get 5) &&& 0x0F) |||
  (((b.get 5) >>> 1) &&& 0x70) |||
  ((b.get 4) &&& 0x80)

/-- Macro `#define SS4_1F_LFB_V2(_b)`. -/
def SS4_1F_LFB_V2 (b : Packet) : Bool :=
  (((b.get 2) >>> 4) &&& 0x01) == 0x01

/-- Macro `#define SS4_BTN_V2(_b)`. -/
def SS4_BTN_V2 (b : Packet) : Nat :=
  ((b.get 0) >>> 5) &&& SS4_MASK_NORMAL_BUTTONS

/-- The bit field `v[hi:lo]` of a value: bits `lo` to `hi` inclusive, as a number. -/
def bitField (v hi lo : Nat) : Nat :=
  (v / 2 ^ lo) % 2 ^ (hi + 1 - lo)

/-! ## Notions used to state the properties -/

/-- The last `n` elements of a list (the whole list when it is shorter). -/
def lastN (n : Nat) (l : List Int) : List Int :=
  l.drop (l.length - n)

/-- The mean of a list of integers, truncated toward zero. -/
def truncatedMean (l : List Int) : Int :=
  Int.tdiv l.sum (l.length : Int)

namespace SimpleAverage

/-- The relation between an object and the samples `xs` fed to it since the last reset: the
count is `min k N`, the write index is `k mod N`, the accumulator is the `int` value of the
sum of the last `min k N` samples, and the slot `j mod N` holds sample `j` for each of them. -/
structure Tracks (N : Nat) (s : SimpleAverage) (xs : List Int) : Prop where
  count_eq : s.m_count = ((min xs.length N : Nat) : Int)
  index_eq : s.m_index = ((xs.length % N : Nat) : Int)
  sum_eq : s.m_sum = cInt.wrap (xs.drop (xs.length - N)).sum
  buffer_eq : ∀ (j : Nat) (h : j < xs.length), xs.length - N ≤ j →
    s.m_buffer ((j % N : Nat) : Int) = xs[j]

end SimpleAverage

/-! ## Sequences of calls on a `SimpleAverage` -/

/-- A call of one of the two member functions of `SimpleAverage` that change the object. -/
inductive Call where
  | reset : Call
  | filter (data : Int) : Call
deriving DecidableEq

namespace SimpleAverage

/-- The object after one call. -/
def call (T : CIntType) (N : Nat) (s : SimpleAverage) : Call → SimpleAverage
  | Call.reset => reset s
  | Call.filter data => (filter T N s data).1

/-- The object after a sequence of calls, in order. -/
def run (T : CIntType) (N : Nat) (s : SimpleAverage) (cs : List Call) : SimpleAverage :=
  cs.foldl (call T N) s

end SimpleAverage

/-- The samples passed to `filter` since the last `reset` of a sequence of calls (since the
start when there is none), in order. -/
def sinceReset (cs : List Call) : List Int :=
  cs.foldl (fun acc c => match c with
    | Call.reset => []
    | Call.filter data => acc ++ [data]) []

/-! ## `SimpleAverage` with the undefined operations made explicit

The same member functions, where an access to `m_buffer` outside the indices `0 .. N-1`, a
read of a slot that was not written since the last reset, and a division by zero have no
result. -/

/-- A `SimpleAverage` object together with the record of the slots of `m_buffer` written
since the last reset. -/
structure Checked where
  obj : SimpleAverage
  written : Int → Bool

namespace Checked

/-- The read `m_buffer[i]`. -/
def read (N : Nat) (c : Checked) (i : Int) : Option Int :=
  if 0 ≤ i ∧ i < (N : Int) ∧ c.written i = true then some (c.obj.m_buffer i) else none

/-- The write `m_buffer[i] = v`. -/
def write (N : Nat) (c : Checked) (i : Int) (v : Int) : Option Checked :=
  if 0 ≤ i ∧ i < (N : Int) then
    some ⟨{ c.obj with m_buffer := Function.update c.obj.m_buffer i v },
      Function.update c.written i true⟩
  else none

/-- The `int` division `a / b`. -/
def cdiv (a b : Int) : Option Int :=
  if b = 0 then none else some (Int.tdiv a b)

/-- Member function `inline void reset()`; no slot is written since this reset. -/
def reset (c : Checked) : Checked :=
  ⟨c.obj.reset, fun _ => false⟩

/-- Constructor `inline SimpleAverage() { reset(); }` over arbitrary memory `mem`. -/
def construct (mem : SimpleAverage) : Checked :=
  reset ⟨mem, fun _ => false⟩

/-- Member function `T filter(T data)`. -/
def filter (T : CIntType) (N : Nat) (c : Checked) (data : Int) : Option (Checked × Int) :=
  -- m_sum += data;
  let sum1 := cInt.wrap (c.obj.m_sum + data)
  -- if (m_count == N) m_sum -= m_buffer[m_index];
  (if c.obj.m_count = (N : Int) then
      (read N c c.obj.m_index).map (fun old => cInt.wrap (sum1 - old))
    else some sum1).bind fun sum2 =>
  -- m_buffer[m_index] = data;
  (write N c c.obj.m_index data).bind fun c1 =>
  -- if (++m_index >= N) m_index = 0;
  let idx := if c.obj.m_index + 1 ≥ (N : Int) then 0 else c.obj.m_index + 1
  -- if (m_count < N) ++m_count;
  let cnt := if c.obj.m_count < (N : Int) then c.obj.m_count + 1 else c.obj.m_count
  -- return m_sum / m_count;
  (cdiv sum2 cnt).map fun q =>
    (⟨{ m_buffer := c1.obj.m_buffer, m_count := cnt, m_sum := sum2, m_index := idx },
        c1.written⟩, T.wrap q)

/-- Member function `T oldest() const`. -/
def oldest (N : Nat) (c : Checked) : Option Int :=
  if c.obj.m_count = 0 then some 0
  else if c.obj.m_count < (N : Int) then read N c 0
  else read N c c.obj.m_index

/-- Member function `T newest() const`. -/
def newest (N : Nat) (c : Checked) : Option Int :=
  if c.obj.m_count = 0 then some 0
  else
    let index := c.obj.m_index - 1
    let index := if index < 0 then c.obj.m_count - 1 else index
    read N c index

/-- Member function `T average() const`. -/
def average (T : CIntType) (c : Checked) : Option Int :=
  if c.obj.m_count = 0 then some 0
  else (cdiv c.obj.m_sum c.obj.m_count).map T.wrap

/-- The object after one call, when the call has a result. -/
def call (T : CIntType) (N : Nat) (c : Checked) : Call → Option Checked
  | Call.reset => some (reset c)
  | Call.filter data => (filter T N c data).map Prod.fst

/-- The object after a sequence of calls, when every call has a result. -/
def run (T : CIntType) (N : Nat) (c : Checked) : List Call → Option Checked
  | [] => some c
  | a :: rest => (call T N c a).bind fun c1 => run T N c1 rest

/-- The state invariant behind the safety of the accesses: the count is between 0 and `N`,
the index between 0 and `N - 1`, the index is the count while the buffer is not full, and the
slots below the count are written. -/
structure Safe (N : Nat) (c : Checked) : Prop where
  count_nonneg : 0 ≤ c.obj.m_count
  count_le : c.obj.m_count ≤ (N : Int)
  index_nonneg : 0 ≤ c.obj.m_index
  index_lt : c.obj.m_index < (N : Int)
  index_eq : c.obj.m_count < (N : Int) → c.obj.m_index = c.obj.m_count
  written_lt : ∀ i : Int, 0 ≤ i → i < c.obj.m_count → c.written i = true

end Checked

/-! ## SS4 multi-finger and trackstick fields -/

/-- Macro `#define SS4_STD_MF_X_V2(_b, _i)`. -/
def SS4_STD_MF_X_V2 (b : Packet) (i : Nat) : Nat :=
  (((b.get (0 + i * 3)) <<< 5) &&& 0x00E0) |||
  (((b.get (1 + i * 3)) <<< 5) &&& 0x1F00)

/-- Macro `#define SS4_PLUS_STD_MF_X_V2(_b, _i)`. -/
def SS4_PLUS_STD_MF_X_V2 (b : Packet) (i : Nat) : Nat :=
  (((b.get (0 + i * 3)) <<< 4) &&& 0x0070) |||
  (((b.get (1 + i * 3)) <<< 4) &&& 0x0F80)

/-- Macro `#define SS4_STD_MF_Y_V2(_b, _i)`. -/
def SS4_STD_MF_Y_V2 (b : Packet) (i : Nat) : Nat :=
  (((b.get (1 + i * 3)) <<< 3) &&& 0x0010) |||
  (((b.get (2 + i * 3)) <<< 5) &&& 0x01E0) |||
  (((b.get (2 + i * 3)) <<< 4) &&& 0x0E00)

/-- Macro `#define SS4_BTL_MF_X_V2(_b, _i)`. -/
def SS4_BTL_MF_X_V2 (b : Packet) (i : Nat) : Nat :=
  SS4_STD_MF_X_V2 b i |||
  (((b.get (0 + i * 3)) >>> 3) &&& 0x0010)

/-- Macro `#define SS4_PLUS_BTL_MF_X_V2(_b, _i)`. -/
def SS4_PLUS_BTL_MF_X_V2 (b : Packet) (i : Nat) : Nat :=
  SS4_PLUS_STD_MF_X_V2 b i |||
  (((b.get (0 + i * 3)) >>> 4) &&& 0x0008)

/-- Macro `#define SS4_BTL_MF_Y_V2(_b, _i)`. -/
def SS4_BTL_MF_Y_V2 (b : Packet) (i : Nat) : Nat :=
  SS4_STD_MF_Y_V2 b i |||
  (((b.get (0 + i * 3)) >>> 3) &&& 0x0008)

/-- Macro `#define SS4_TS_X_V2(_b)`. -/
def SS4_TS_X_V2 (b : Packet) : Int :=
  (((((b.get 0) &&& 0x01) <<< 7) |||
    ((b.get 1) &&& 0x7F) : Nat) : Int)

/-- Macro `#define SS4_TS_Y_V2(_b)`. -/
def SS4_TS_Y_V2 (b : Packet) : Int :=
  -(((((b.get 3) &&& 0x01) <<< 7) |||
    ((b.get 2) &&& 0x7F) : Nat) : Int)

/-- Macro `#define SS4_TS_Z_V2(_b)`. -/
def SS4_TS_Z_V2 (b : Packet) : Int :=
  (((b.get 4) &&& 0x7F : Nat) : Int)

/-- Macro `#define SS4_MFPACKET_NO_AX 8160`. -/
def SS4_MFPACKET_NO_AX : Nat := 8160

/-- Macro `#define SS4_MFPACKET_NO_AY 4080`. -/
def SS4_MFPACKET_NO_AY : Nat := 4080

/-- Macro `#define SS4_MFPACKET_NO_AX_BL 8176`. -/
def SS4_MFPACKET_NO_AX_BL : Nat := 8176

/-- Macro `#define SS4_MFPACKET_NO_AY_BL 4088`. -/
def SS4_MFPACKET_NO_AY_BL : Nat := 4088

/-- Macro `#define SS4_PLUS_MFPACKET_NO_AX 4080`. -/
def SS4_PLUS_MFPACKET_NO_AX : Nat := 4080

/-- Macro `#define SS4_PLUS_MFPACKET_NO_AX_BL 4088`. -/
def SS4_PLUS_MFPACKET_NO_AX_BL : Nat := 4088

/-! ## Arithmetic of the conversions -/

theorem cInt_wrap_eq (z : Int) :
    cInt.wrap z = (z + 2147483648) % 4294967296 - 2147483648 := by
  simp [CIntType.wrap, cInt]

theorem cInt_inRange_iff (z : Int) :
    cInt.inRange z ↔ -2147483648 ≤ z ∧ z < 2147483648 := by
  simp [CIntType.inRange, cInt]

theorem cInt_wrap_of_inRange {z : Int} (h : cInt.inRange z) : cInt.wrap z = z := by
  rw [cInt_inRange_iff] at h
  rw [cInt_wrap_eq]
  omega

theorem cInt_wrap_inRange (z : Int) : cInt.inRange (cInt.wrap z) := by
  rw [cInt_inRange_iff, cInt_wrap_eq]
  omega

theorem cInt_wrap_add_left (a b : Int) : cInt.wrap (cInt.wrap a + b) = cInt.wrap (a + b) := by
  simp only [cInt_wrap_eq]
  omega

theorem cInt_wrap_sub_left (a b : Int) : cInt.wrap (cInt.wrap a - b) = cInt.wrap (a - b) := by
  simp only [cInt_wrap_eq]
  omega

/-! ## Index arithmetic of the circular buffer -/

theorem succ_mod_eq (k N : Nat) (hN : 0 < N) :
    (k + 1) % N = if k % N + 1 = N then 0 else k % N + 1 := by
  have hr : k % N < N := Nat.mod_lt _ hN
  have hk : k + 1 = k % N + 1 + N * (k / N) := by
    have := Nat.mod_add_div k N
    omega
  rw [hk, Nat.add_mul_mod_self_left]
  split
  · next h => rw [h]; exact Nat.mod_self _
  · next h => exact Nat.mod_eq_of_lt (by omega)

theorem mod_ne_of_lt_of_lt_add {j k N : Nat} (h1 : j < k) (h2 : k < j + N) :
    j % N ≠ k % N := by
  intro h
  have hd : N ∣ k - j := (Nat.modEq_iff_dvd' (Nat.le_of_lt h1)).1 h
  have := Nat.le_of_dvd (by omega) hd
  omega

theorem sub_mod_self_eq {k N : Nat} (h : N ≤ k) : (k - N) % N = k % N := by
  have hk : k = (k - N) + N := by omega
  conv_rhs => rw [hk, Nat.add_mod_right]

namespace SimpleAverage

theorem tracks_reset (N : Nat) (s : SimpleAverage) : Tracks N (reset s) [] := by
  refine ⟨?_, ?_, ?_, ?_⟩
  · simp [reset]
  · simp [reset]
  · simp [reset, cInt_wrap_eq]
  · intro j h
    simp at h

/-- The window sum after one more sample. -/
theorem sum_drop_append (N : Nat) (hN : 1 ≤ N) (xs : List Int) (x : Int) :
    ((xs ++ [x]).drop ((xs ++ [x]).length - N)).sum =
      (xs.drop (xs.length - N)).sum + x -
        (if h : N ≤ xs.length then xs[xs.length - N] else 0) := by
  by_cases h : N ≤ xs.length
  · have h1 : (xs ++ [x]).length - N = (xs.length - N) + 1 := by
      simp only [List.length_append, List.length_singleton]; omega
    have h2 : xs.length - N < xs.length := by omega
    rw [dif_pos h, h1, List.drop_append_of_le_length (by omega),
      List.drop_eq_getElem_cons h2]
    simp only [List.sum_append, List.sum_cons, List.sum_nil]
    omega
  · have h1 : (xs ++ [x]).length - N = 0 := by
      simp only [List.length_append, List.length_singleton]; omega
    have h2 : xs.length - N = 0 := by omega
    rw [dif_neg h, h1, h2, List.drop_zero, List.drop_zero]
    simp only [List.sum_append, List.sum_cons, List.sum_nil]
    omega

theorem tracks_filter (T : CIntType) {N : Nat} (hN : 1 ≤ N) {s : SimpleAverage}
    {xs : List Int} (h : Tracks N s xs) (x : Int) :
    Tracks N (filter T N s x).1 (xs ++ [x]) := by
  obtain ⟨hc, hi, hs, hb⟩ := h
  have hr : xs.length % N < N := Nat.mod_lt _ (by omega)
  refine ⟨?_, ?_, ?_, ?_⟩
  · simp only [filter, hc, List.length_append, List.length_singleton]
    split <;> omega
  · simp only [filter, hi, List.length_append, List.length_singleton]
    rw [succ_mod_eq _ _ (by omega)]
    split <;> split <;> omega
  · simp only [filter, hc, hi, hs]
    rw [sum_drop_append N hN]
    by_cases hk : N ≤ xs.length
    · have hmin : ((min xs.length N : Nat) : Int) = (N : Int) := by
        rw [Nat.min_eq_right hk]
      have hbuf := hb (xs.length - N) (by omega) (le_refl _)
      rw [sub_mod_self_eq hk] at hbuf
      rw [if_pos hmin, hbuf, dif_pos hk, cInt_wrap_add_left, cInt_wrap_sub_left]
    · have hmin : ((min xs.length N : Nat) : Int) ≠ (N : Int) := by
        rw [Nat.min_eq_left (by omega)]; omega
      rw [if_neg hmin, dif_neg hk, cInt_wrap_add_left]
      simp
  · intro j hj hlo
    simp only [List.length_append, List.length_singleton] at hj hlo
    simp only [filter, hi]
    by_cases hjk : j = xs.length
    · subst hjk
      simp
    · have hj' : j < xs.length := by omega
      have hne : j % N ≠ xs.length % N := mod_ne_of_lt_of_lt_add hj' (by omega)
      have hne' : ((j % N : Nat) : Int) ≠ ((xs.length % N : Nat) : Int) := by
        intro h; exact hne (by exact_mod_cast h)
      rw [Function.update_noteq hne', hb j hj' (by omega), List.getElem_append_left hj']

theorem tracks_feed (T : CIntType) {N : Nat} (hN : 1 ≤ N) (ys : List Int) :
    ∀ {s : SimpleAverage} {xs : List Int}, Tracks N s xs →
      Tracks N (feed T N s ys) (xs ++ ys) := by
  induction ys with
  | nil => intro s xs h; simpa [feed] using h
  | cons y ys ih =>
    intro s xs h
    have h1 := ih (tracks_filter T hN h y)
    simpa [feed] using h1

end SimpleAverage
/-! ## Truncating division -/

theorem tdiv_bounds (a b : Int) (hb : 1 ≤ b) :
    (0 ≤ a → 0 ≤ Int.tdiv a b ∧ Int.tdiv a b ≤ a) ∧
    (a ≤ 0 → a ≤ Int.tdiv a b ∧ Int.tdiv a b ≤ 0) := by
  constructor
  · intro ha
    rw [Int.tdiv_eq_ediv ha (by omega)]
    exact ⟨Int.ediv_nonneg ha (by omega), Int.ediv_le_self _ ha⟩
  · intro ha
    have hna : 0 ≤ -a := by omega
    have h := Int.neg_tdiv a b
    rw [Int.tdiv_eq_ediv hna (by omega)] at h
    have h1 := Int.ediv_nonneg hna (show (0 : Int) ≤ b by omega)
    have h2 := Int.ediv_le_self b hna
    omega

theorem cInt_inRange_tdiv {a b : Int} (ha : cInt.inRange a) (hb : 1 ≤ b) :
    cInt.inRange (Int.tdiv a b) := by
  rw [cInt_inRange_iff] at *
  have h := tdiv_bounds a b hb
  rcases le_total 0 a with h0 | h0
  · have := h.1 h0; omega
  · have := h.2 h0; omega

theorem lastN_min_length (N : Nat) (l : List Int) :
    lastN (min l.length N) l = l.drop (l.length - N) := by
  unfold lastN
  congr 1
  omega

theorem length_lastN_min (N : Nat) (l : List Int) :
    (lastN (min l.length N) l).length = min l.length N := by
  unfold lastN
  rw [List.length_drop]
  omega

theorem lastN_cons_of_le (n : Nat) (a : Int) (r : List Int) (h : n ≤ r.length) :
    lastN n (a :: r) = lastN n r := by
  unfold lastN
  have hd : (a :: r).length - n = (r.length - n) + 1 := by
    simp only [List.length_cons]; omega
  rw [hd, List.drop_succ_cons]

namespace SimpleAverage

/-- The value returned by `filter` is the quotient of the updated members. -/
theorem filter_snd (T : CIntType) (N : Nat) (s : SimpleAverage) (x : Int) :
    (filter T N s x).2 =
      T.wrap (Int.tdiv (filter T N s x).1.m_sum (filter T N s x).1.m_count) := rfl

/-- What `filter` returns on an object that tracks `xs`, with no assumption on the size of
the samples: the `int` value of the window sum, divided and converted to `T`. -/
theorem filter_of_tracks (T : CIntType) {N : Nat} (hN : 1 ≤ N) {s : SimpleAverage}
    {xs : List Int} (h : Tracks N s xs) (x : Int) :
    (filter T N s x).2 =
      T.wrap (Int.tdiv (cInt.wrap (lastN (min (xs ++ [x]).length N) (xs ++ [x])).sum)
        ((min (xs ++ [x]).length N : Nat) : Int)) := by
  have ht := tracks_filter T hN h x
  rw [filter_snd, ht.sum_eq, ht.count_eq, lastN_min_length]

theorem newest_of_tracks {N : Nat} (hN : 1 ≤ N) {s : SimpleAverage} {xs : List Int}
    (h : Tracks N s xs) (hk : 0 < xs.length) : newest s = xs[xs.length - 1] := by
  obtain ⟨hc, hi, -, hb⟩ := h
  have hm := succ_mod_eq (xs.length - 1) N (by omega)
  have hk1 : xs.length - 1 + 1 = xs.length := by omega
  rw [hk1] at hm
  have hr : (xs.length - 1) % N < N := Nat.mod_lt _ (by omega)
  have hbuf := hb (xs.length - 1) (by omega) (by omega)
  rw [← hbuf]
  simp only [newest, hc, hi]
  have hc0 : ((min xs.length N : Nat) : Int) ≠ 0 := by omega
  rw [if_neg hc0]
  congr 1
  by_cases h0 : (xs.length - 1) % N + 1 = N
  · rw [if_pos h0] at hm
    have hge : N ≤ xs.length := by
      by_contra hlt
      rw [Nat.mod_eq_of_lt (by omega)] at hm
      omega
    rw [hm, Nat.min_eq_right hge]
    simp only [Nat.cast_zero]
    split <;> omega
  · rw [if_neg h0] at hm
    rw [hm]
    split <;> omega

theorem oldest_of_tracks {N : Nat} (hN : 1 ≤ N) {s : SimpleAverage} {xs : List Int}
    (h : Tracks N s xs) (hk : 0 < xs.length) : oldest N s = xs[xs.length - N] := by
  obtain ⟨hc, hi, -, hb⟩ := h
  have hc0 : ((min xs.length N : Nat) : Int) ≠ 0 := by omega
  simp only [oldest, hc, hi]
  rw [if_neg hc0]
  by_cases hlt : xs.length < N
  · have h1 : ((min xs.length N : Nat) : Int) < (N : Int) := by omega
    rw [if_pos h1]
    have hbuf := hb 0 hk (by omega)
    have hz : xs.length - N = 0 := by omega
    simp only [Nat.zero_mod, Nat.cast_zero] at hbuf
    simp only [hbuf, hz]
  · have h1 : ¬ ((min xs.length N : Nat) : Int) < (N : Int) := by omega
    rw [if_neg h1]
    have hbuf := hb (xs.length - N) (by omega) (le_refl _)
    rw [sub_mod_self_eq (by omega)] at hbuf
    exact hbuf

end SimpleAverage
namespace SimpleAverage

/-- Two objects that track the same samples agree on every observer. -/
theorem observers_eq_of_tracks (T : CIntType) {N : Nat} (hN : 1 ≤ N) {a b : SimpleAverage}
    {xs : List Int} (ha : Tracks N a xs) (hb : Tracks N b xs) :
    count a = count b ∧ sum a = sum b ∧ oldest N a = oldest N b ∧ newest a = newest b ∧
      average T a = average T b ∧ ∀ x, (filter T N a x).2 = (filter T N b x).2 := by
  have hc : a.m_count = b.m_count := by rw [ha.count_eq, hb.count_eq]
  have hs : a.m_sum = b.m_sum := by rw [ha.sum_eq, hb.sum_eq]
  refine ⟨hc, hs, ?_, ?_, ?_, ?_⟩
  · rcases Nat.eq_zero_or_pos xs.length with h0 | hpos
    · have hca : a.m_count = 0 := by rw [ha.count_eq, h0]; simp
      have hcb : b.m_count = 0 := by rw [hb.count_eq, h0]; simp
      simp [oldest, hca, hcb]
    · rw [oldest_of_tracks hN ha hpos, oldest_of_tracks hN hb hpos]
  · rcases Nat.eq_zero_or_pos xs.length with h0 | hpos
    · have hca : a.m_count = 0 := by rw [ha.count_eq, h0]; simp
      have hcb : b.m_count = 0 := by rw [hb.count_eq, h0]; simp
      simp [newest, hca, hcb]
    · rw [newest_of_tracks hN ha hpos, newest_of_tracks hN hb hpos]
  · simp only [average, hc, hs]
  · intro x
    rw [filter_of_tracks T hN ha, filter_of_tracks T hN hb]

/-- C1. `SimpleAverage<int, N>` with `N >= 1`: after construction or `reset()` (the object
`reset s0`, whatever `s0` was) and the samples `xs`, the next call `filter(x)`, which is call
number `k = |xs| + 1`, returns the sum of the last `min k N` samples divided by `min k N`,
truncated toward zero, provided that this window sum is an `int` value.  When more than `N`
samples have been fed (`k > N`), the first sample does not contribute: replacing it by any
other value `x0` leaves the returned value unchanged. -/
theorem filter_returns_truncated_mean (N : Nat) (hN : 1 ≤ N) (s0 : SimpleAverage)
    (xs : List Int) (x : Int)
    (hfit : cInt.inRange (lastN (min (xs ++ [x]).length N) (xs ++ [x])).sum) :
    (filter cInt N (feed cInt N (reset s0) xs) x).2 =
        truncatedMean (lastN (min (xs ++ [x]).length N) (xs ++ [x])) ∧
      (N ≤ xs.length → ∀ x0 : Int,
        (filter cInt N (feed cInt N (reset s0) (x0 :: xs.tail)) x).2 =
          (filter cInt N (feed cInt N (reset s0) xs) x).2) := by
  have ht : ∀ l : List Int, Tracks N (feed cInt N (reset s0) l) l := fun l => by
    simpa using tracks_feed cInt hN l (tracks_reset N s0)
  constructor
  · rw [filter_of_tracks cInt hN (ht xs), cInt_wrap_of_inRange hfit, truncatedMean,
      length_lastN_min]
    apply cInt_wrap_of_inRange
    apply cInt_inRange_tdiv hfit
    simp only [List.length_append, List.length_singleton]
    omega
  · intro hlen x0
    rw [filter_of_tracks cInt hN (ht xs), filter_of_tracks cInt hN (ht (x0 :: xs.tail))]
    cases xs with
    | nil => simp only [List.length_nil] at hlen; omega
    | cons a t =>
      have hle : min (a :: t ++ [x]).length N ≤ (t ++ [x]).length := by
        simp only [List.length_append, List.length_cons, List.length_singleton] at hlen ⊢
        omega
      have hlen2 : (x0 :: (a :: t).tail ++ [x]).length = (a :: t ++ [x]).length := by
        simp
      rw [hlen2]
      rw [show x0 :: (a :: t).tail ++ [x] = x0 :: (t ++ [x]) from rfl,
        show a :: t ++ [x] = a :: (t ++ [x]) from rfl] at *
      rw [lastN_cons_of_le _ _ _ hle, lastN_cons_of_le _ _ _ hle]

/-- Witness for C1: window 2, samples 5, 7 and then 10; the third call returns
`(7 + 10) / 2 = 8`, and 5 does not contribute. -/
theorem filter_returns_truncated_mean_witness :
    (filter cInt 2 (feed cInt 2 (reset ⟨fun _ => 99, 4, 3, 1⟩) [5, 7]) 10).2 =
        truncatedMean (lastN (min ([5, 7] ++ [10]).length 2) ([5, 7] ++ [10])) ∧
      (2 ≤ [(5 : Int), 7].length → ∀ x0 : Int,
        (filter cInt 2 (feed cInt 2 (reset ⟨fun _ => 99, 4, 3, 1⟩)
          (x0 :: [(5 : Int), 7].tail)) 10).2 =
          (filter cInt 2 (feed cInt 2 (reset ⟨fun _ => 99, 4, 3, 1⟩) [5, 7]) 10).2) :=
  filter_returns_truncated_mean 2 (by decide) ⟨fun _ => 99, 4, 3, 1⟩ [5, 7] 10 (by decide)

/-- C2. `SimpleAverage<T, N>` with `N >= 1`, after `k >= 1` samples `xs` fed since the last
reset (or construction): `newest()` returns the last sample `x_k`; `oldest()` returns the
first sample `x_1` when `k <= N` and the sample `x_(k-N+1)` (index `k - N` counting from 0)
when `k > N`. -/
theorem newest_oldest_after_feed (T : CIntType) (N : Nat) (hN : 1 ≤ N) (s0 : SimpleAverage)
    (xs : List Int) (hk : 0 < xs.length) :
    newest (feed T N (reset s0) xs) = xs[xs.length - 1] ∧
      (xs.length ≤ N → oldest N (feed T N (reset s0) xs) = xs[0]) ∧
      (N < xs.length → oldest N (feed T N (reset s0) xs) = xs[xs.length - N]) := by
  have ht : Tracks N (feed T N (reset s0) xs) xs := by
    simpa using tracks_feed T hN xs (tracks_reset N s0)
  refine ⟨newest_of_tracks hN ht hk, ?_, ?_⟩
  · intro hle
    rw [oldest_of_tracks hN ht hk]
    have hz : xs.length - N = 0 := by omega
    simp only [hz]
  · intro _
    exact oldest_of_tracks hN ht hk

/-- Witness for C2: window 3, seven samples (the buffer has wrapped around twice). -/
theorem newest_oldest_after_feed_witness :
    newest (feed cInt 3 (reset ⟨fun _ => 99, 4, 3, 1⟩) [1, 2, 3, 4, 5, 6, 7]) = 7 ∧
      oldest 3 (feed cInt 3 (reset ⟨fun _ => 99, 4, 3, 1⟩) [1, 2, 3, 4, 5, 6, 7]) = 5 := by
  have h := newest_oldest_after_feed cInt 3 (by decide) ⟨fun _ => 99, 4, 3, 1⟩
    [1, 2, 3, 4, 5, 6, 7] (by decide)
  exact ⟨h.1, h.2.2 (by decide)⟩

end SimpleAverage
namespace SimpleAverage

/-- C6. `reset()` clears all state.  For any object `s` (in particular the object left by any
history of `filter()` calls, with whatever it holds in its buffer) and any freshly constructed
object (constructed over any memory contents `mem`), feeding the same samples `ys` to
`reset s` and to the fresh object gives the same `count()`, `sum()`, `oldest()`, `newest()`
and `average()`, and the same value returned by a further `filter(x)`, for every `x`; since
`ys` is arbitrary this covers the value returned by every `filter()` call after the reset. -/
theorem reset_clears_state (T : CIntType) (N : Nat) (hN : 1 ≤ N) (s mem : SimpleAverage)
    (ys : List Int) :
    count (feed T N (reset s) ys) = count (feed T N (construct mem) ys) ∧
      sum (feed T N (reset s) ys) = sum (feed T N (construct mem) ys) ∧
      oldest N (feed T N (reset s) ys) = oldest N (feed T N (construct mem) ys) ∧
      newest (feed T N (reset s) ys) = newest (feed T N (construct mem) ys) ∧
      average T (feed T N (reset s) ys) = average T (feed T N (construct mem) ys) ∧
      ∀ x, (filter T N (feed T N (reset s) ys) x).2 =
        (filter T N (feed T N (construct mem) ys) x).2 := by
  have ha : Tracks N (feed T N (reset s) ys) ys := by
    simpa using tracks_feed T hN ys (tracks_reset N s)
  have hb : Tracks N (feed T N (construct mem) ys) ys := by
    simpa [construct] using tracks_feed T hN ys (tracks_reset N mem)
  exact observers_eq_of_tracks T hN ha hb

/-- Witness for C6: window 2; an object that was fed 10, 20, 30 and then reset, against a
fresh object over a zeroed memory, both fed 1, 2, 3. -/
theorem reset_clears_state_witness :
    count (feed cInt 2 (reset (feed cInt 2 (construct ⟨fun _ => 99, 4, 3, 1⟩) [10, 20, 30]))
        [1, 2, 3]) = count (feed cInt 2 (construct ⟨fun _ => 0, 0, 0, 0⟩) [1, 2, 3]) ∧
      oldest 2 (feed cInt 2 (reset (feed cInt 2 (construct ⟨fun _ => 99, 4, 3, 1⟩)
        [10, 20, 30])) [1, 2, 3]) = 2 :=
  ⟨(reset_clears_state cInt 2 (by decide)
      (feed cInt 2 (construct ⟨fun _ => 99, 4, 3, 1⟩) [10, 20, 30])
      ⟨fun _ => 0, 0, 0, 0⟩ [1, 2, 3]).1, by decide⟩

/-- C7. On an empty `SimpleAverage` (freshly constructed over any memory contents, or just
after `reset()` of any object), `average()`, `oldest()` and `newest()` return 0, and
`count()` and `sum()` are 0. -/
theorem empty_returns_zero (T : CIntType) (N : Nat) (s : SimpleAverage) :
    (average T (reset s) = 0 ∧ oldest N (reset s) = 0 ∧ newest (reset s) = 0 ∧
        count (reset s) = 0 ∧ sum (reset s) = 0) ∧
      (average T (construct s) = 0 ∧ oldest N (construct s) = 0 ∧ newest (construct s) = 0 ∧
        count (construct s) = 0 ∧ sum (construct s) = 0) := by
  simp [average, oldest, newest, count, sum, construct, reset]

/-- C8. `SimpleAverage<uint64_t, 32>` (`time_history`) on the single sample 5000000000 (a
time of five seconds in nanoseconds) after a reset: the `int` accumulator keeps only
`5000000000 - 2^32 = 705032704`, and `filter()` returns that, while the mean of the one
sample is 5000000000. -/
theorem filter_uint64_single_sample (s0 : SimpleAverage) :
    (filter cUInt64 32 (reset s0) 5000000000).2 = 705032704 ∧
      truncatedMean (lastN (min 1 32) [5000000000]) = 5000000000 := by
  constructor
  · simp [filter, reset, CIntType.wrap, cInt, cUInt64]
  · decide

end SimpleAverage
/-! ## The instantiation `T = int`, `TT = int64_t` of the decaying filters -/

theorem cInt64_wrap_eq (z : Int) :
    cInt64.wrap z =
      (z + 9223372036854775808) % 18446744073709551616 - 9223372036854775808 := by
  simp [CIntType.wrap, cInt64]

theorem cInt64_wrap_of_natAbs_le {z : Int} (h : z.natAbs ≤ 4611686018427387904) :
    cInt64.wrap z = z := by
  rw [cInt64_wrap_eq]
  omega

theorem cInt_wrap_cInt64_wrap (z : Int) : cInt.wrap (cInt64.wrap z) = cInt.wrap z := by
  rw [cInt64_wrap_eq, cInt_wrap_eq, cInt_wrap_eq]
  omega

theorem cInt64_wrap_of_cInt_inRange {z : Int} (h : cInt.inRange z) : cInt64.wrap z = z := by
  rw [cInt_inRange_iff] at h
  exact cInt64_wrap_of_natAbs_le (by omega)

theorem natAbs_mul_le_of_cInt_inRange {a b : Int} (ha : cInt.inRange a)
    (hb : cInt.inRange b) : (a * b).natAbs ≤ 4611686018427387904 := by
  rw [cInt_inRange_iff] at ha hb
  rw [Int.natAbs_mul]
  calc a.natAbs * b.natAbs ≤ 2147483648 * 2147483648 :=
        Nat.mul_le_mul (by omega) (by omega)
    _ = 4611686018427387904 := by norm_num

theorem natAbs_tdiv_le (a b : Int) : (Int.tdiv a b).natAbs ≤ a.natAbs := by
  rw [Int.natAbs_tdiv]
  exact Nat.div_le_self _ _

/-- A product of two `int` values divided by an `int` value, computed in `int64_t`, is the
mathematical value. -/
theorem cInt64_div_mul {a b d : Int} (ha : cInt.inRange a) (hb : cInt.inRange b)
    (hd : cInt.inRange d) :
    cInt64.div (cInt64.mul (cInt64.wrap a) (cInt64.wrap b)) (cInt64.wrap d) =
      Int.tdiv (a * b) d := by
  have hab := natAbs_mul_le_of_cInt_inRange ha hb
  simp only [CIntType.div, CIntType.mul]
  rw [cInt64_wrap_of_cInt_inRange ha, cInt64_wrap_of_cInt_inRange hb,
    cInt64_wrap_of_cInt_inRange hd, cInt64_wrap_of_natAbs_le hab]
  exact cInt64_wrap_of_natAbs_le (le_trans (natAbs_tdiv_le _ _) hab)

namespace DecayingAverage

/-- One call of `filter` for `T = int`, `TT = int64_t`, on an object whose stored value (when
valid) is an `int`. -/
theorem decay_filter_int {N1 N2 D : Int} (hN1 : cInt.inRange N1) (hN2 : cInt.inRange N2)
    (hD : cInt.inRange D) (s : DecayingAverage)
    (hs : s.m_lastvalid = true → cInt.inRange s.m_last) {x : Int} (hx : cInt.inRange x)
    (f : Int) :
    filter cInt cInt64 N1 N2 D s x f =
      (⟨if s.m_lastvalid then
            cInt.wrap (Int.tdiv (x * N1) D + Int.tdiv (s.m_last * N2) D) else x, true⟩,
        if s.m_lastvalid then
          cInt.wrap (Int.tdiv (x * N1) D + Int.tdiv (s.m_last * N2) D) else x) := by
  cases hv : s.m_lastvalid with
  | false =>
    simp only [filter, hv, Bool.false_eq_true, if_false]
    rw [cInt_wrap_cInt64_wrap, cInt_wrap_of_inRange hx]
  | true =>
    simp only [filter, hv, if_true]
    rw [cInt64_div_mul hx hN1 hD, cInt64_div_mul (hs hv) hN2 hD]
    simp only [CIntType.add]
    rw [cInt_wrap_cInt64_wrap]

/-- The value returned by `filter` is an `int`, and it is the stored value. -/
theorem filter_fst (T TT : CIntType) (N1 N2 D : Int) (s : DecayingAverage) (x f : Int) :
    (filter T TT N1 N2 D s x f).1 = ⟨(filter T TT N1 N2 D s x f).2, true⟩ := rfl

theorem filter_inRange (TT : CIntType) (N1 N2 D : Int) (s : DecayingAverage) (x f : Int) :
    cInt.inRange (filter cInt TT N1 N2 D s x f).2 :=
  cInt_wrap_inRange _

theorem outputs_inRange (TT : CIntType) (N1 N2 D : Int) (xs : List (Int × Int)) :
    ∀ (s : DecayingAverage), ∀ y ∈ outputs cInt TT N1 N2 D s xs, cInt.inRange y := by
  induction xs with
  | nil => intro s y hy; simp [outputs] at hy
  | cons a rest ih =>
    intro s y hy
    simp only [outputs, List.mem_cons] at hy
    rcases hy with rfl | hy
    · exact filter_inRange TT N1 N2 D s a.1 a.2
    · exact ih _ y hy

/-- Consecutive outputs of the decaying filter: `y_(k+1)` from `x_(k+1)` and `y_k`. -/
theorem decay_outputs_succ {N1 N2 D : Int} (hN1 : cInt.inRange N1) (hN2 : cInt.inRange N2)
    (hD : cInt.inRange D) (xs : List (Int × Int)) :
    ∀ (s : DecayingAverage), (s.m_lastvalid = true → cInt.inRange s.m_last) →
      (∀ xf ∈ xs, cInt.inRange xf.1) → ∀ (k : Nat) (x f y : Int),
      xs[k + 1]? = some (x, f) → (outputs cInt cInt64 N1 N2 D s xs)[k]? = some y →
      (outputs cInt cInt64 N1 N2 D s xs)[k + 1]? =
        some (cInt.wrap (Int.tdiv (x * N1) D + Int.tdiv (y * N2) D)) := by
  induction xs with
  | nil => intro s _ _ k x f y h; simp at h
  | cons a rest ih =>
    intro s hs hxs k x f y hx hy
    have hgood : (filter cInt cInt64 N1 N2 D s a.1 a.2).1.m_lastvalid = true →
        cInt.inRange (filter cInt cInt64 N1 N2 D s a.1 a.2).1.m_last := fun _ =>
      filter_inRange cInt64 N1 N2 D s a.1 a.2
    have hrest : ∀ xf ∈ rest, cInt.inRange xf.1 := fun xf h =>
      hxs xf (List.mem_cons_of_mem _ h)
    simp only [outputs, List.getElem?_cons_succ] at hx hy ⊢
    cases k with
    | zero =>
      simp only [List.getElem?_cons_zero, Option.some.injEq] at hy
      cases rest with
      | nil => simp at hx
      | cons b rest' =>
        simp only [List.getElem?_cons_zero, Option.some.injEq] at hx
        subst hx
        have hb : cInt.inRange x := hxs (x, f) (by simp)
        simp only [outputs, List.getElem?_cons_zero, Option.some.injEq]
        rw [decay_filter_int hN1 hN2 hD _ hgood hb, filter_fst]
        simp only [if_true, hy]
    | succ k' =>
      simp only [List.getElem?_cons_succ] at hy
      exact ih _ hgood hrest k' x f y hx hy

end DecayingAverage

namespace UndecayAverage

/-- One call of `filter` for `T = int`, `TT = int64_t`, on an object whose stored value (when
valid) is an `int`. -/
theorem undecay_filter_int {N1 N2 D : Int} (hN1 : cInt.inRange N1) (hN2 : cInt.inRange N2)
    (hD : cInt.inRange D) (s : UndecayAverage)
    (hs : s.m_lastvalid = true → cInt.inRange s.m_last) {y : Int} (hy : cInt.inRange y) :
    filter cInt cInt64 N1 N2 D s y =
      (⟨y, true⟩,
        if s.m_lastvalid then
          cInt.wrap (Int.tdiv (y * D) N1 - Int.tdiv (s.m_last * N2) N1) else y) := by
  cases hv : s.m_lastvalid with
  | false =>
    simp only [filter, hv, Bool.false_eq_true, if_false]
    rw [cInt_wrap_cInt64_wrap, cInt_wrap_of_inRange hy]
  | true =>
    simp only [filter, hv, if_true]
    rw [cInt64_div_mul hy hD hN1, cInt64_div_mul (hs hv) hN2 hN1]
    simp only [CIntType.sub]
    rw [cInt_wrap_cInt64_wrap, cInt_wrap_of_inRange hy]

/-- Consecutive outputs of the undecay filter: `u_(k+1)` from `y_(k+1)` and `y_k`. -/
theorem undecay_outputs_succ {N1 N2 D : Int} (hN1 : cInt.inRange N1) (hN2 : cInt.inRange N2)
    (hD : cInt.inRange D) (ys : List Int) :
    ∀ (s : UndecayAverage), (s.m_lastvalid = true → cInt.inRange s.m_last) →
      (∀ y ∈ ys, cInt.inRange y) → ∀ (k : Nat) (y q : Int),
      ys[k + 1]? = some y → ys[k]? = some q →
      (outputs cInt cInt64 N1 N2 D s ys)[k + 1]? =
        some (cInt.wrap (Int.tdiv (y * D) N1 - Int.tdiv (q * N2) N1)) := by
  induction ys with
  | nil => intro s _ _ k y q h; simp at h
  | cons a rest ih =>
    intro s hs hys k y q hy hq
    have ha : cInt.inRange a := hys a (by simp)
    have hrest : ∀ y ∈ rest, cInt.inRange y := fun y h => hys y (List.mem_cons_of_mem _ h)
    simp only [outputs, List.getElem?_cons_succ] at hy ⊢
    rw [undecay_filter_int hN1 hN2 hD s hs ha]
    cases k with
    | zero =>
      simp only [List.getElem?_cons_zero, Option.some.injEq] at hq
      subst hq
      cases rest with
      | nil => simp at hy
      | cons b rest' =>
        simp only [List.getElem?_cons_zero, Option.some.injEq] at hy
        subst hy
        have hb : cInt.inRange b := hys b (by simp)
        simp only [outputs, List.getElem?_cons_zero, Option.some.injEq]
        rw [undecay_filter_int hN1 hN2 hD _ (fun _ => ha) hb]
        simp
    | succ k' =>
      simp only [List.getElem?_cons_succ] at hq
      exact ih _ (fun _ => ha) hrest k' y q hy hq

end UndecayAverage

/-- Halving truncated toward zero, in terms of the floor division. -/
theorem tdiv_two_eq (a : Int) : Int.tdiv a 2 = if 0 ≤ a then a / 2 else -((-a) / 2) := by
  split
  · next h => exact Int.tdiv_eq_ediv h (by decide)
  · next h =>
    have h2 := Int.neg_tdiv a 2
    rw [Int.tdiv_eq_ediv (show (0 : Int) ≤ -a by omega) (by decide)] at h2
    omega

/-- The remainder of a division by 2 truncated toward zero: 0 for an even number, 1 for an
odd positive number, -1 for an odd negative number. -/
theorem tmod_two_cases (a : Int) :
    (Int.tmod a 2 = 0 ∧ 2 ∣ a) ∨ (Int.tmod a 2 = 1 ∧ 0 < a ∧ ¬ 2 ∣ a) ∨
      (Int.tmod a 2 = -1 ∧ a < 0 ∧ ¬ 2 ∣ a) := by
  rw [Int.tmod_def, tdiv_two_eq]
  split <;> omega

/-- With the coefficients 1, 1, 2 the decayed value of two `int` values is an `int` value. -/
theorem cInt_inRange_half_add_half {a b : Int} (ha : cInt.inRange a) (hb : cInt.inRange b) :
    cInt.inRange (Int.tdiv (a * 1) 2 + Int.tdiv (b * 1) 2) := by
  rw [cInt_inRange_iff] at *
  rw [Int.mul_one, Int.mul_one, tdiv_two_eq a, tdiv_two_eq b]
  split <;> split <;> omega

/-- The round trip `undecay ∘ decay` at one step where every division is exact. -/
theorem tdiv_round_trip {N1 N2 D x y : Int} (hN1 : N1 ≠ 0) (h1 : D ∣ x * N1)
    (h2 : D ∣ y * N2) (h3 : N1 ∣ y * N2) :
    Int.tdiv ((Int.tdiv (x * N1) D + Int.tdiv (y * N2) D) * D) N1 -
      Int.tdiv (y * N2) N1 = x := by
  have e1 : (Int.tdiv (x * N1) D + Int.tdiv (y * N2) D) * D = x * N1 + y * N2 := by
    rw [Int.add_mul, Int.tdiv_mul_cancel h1, Int.tdiv_mul_cancel h2]
  obtain ⟨c, hc⟩ := h3
  rw [e1, hc, show x * N1 + N1 * c = N1 * (x + c) by ring,
    Int.mul_tdiv_cancel_left _ hN1, Int.mul_tdiv_cancel_left _ hN1]
  ring

/-- C3 (counterexample). `DecayingAverage<int, int64_t, 1, 1, 2>` fed 1 and then 1 returns 1
and then `1/2 + 1/2 = 0`; `UndecayAverage<int, int64_t, 1, 1, 2>` fed 1 and then 0 returns
1 and then `2*0 - 1 = -1`, which is not the second input 1. -/
theorem round_trip_1_1_2_odd_inputs :
    DecayingAverage.outputs cInt cInt64 1 1 2 (DecayingAverage.reset ⟨0, false⟩)
        [(1, 0), (1, 0)] = [1, 0] ∧
      UndecayAverage.outputs cInt cInt64 1 1 2 (UndecayAverage.reset ⟨0, false⟩)
        (DecayingAverage.outputs cInt cInt64 1 1 2 (DecayingAverage.reset ⟨0, false⟩)
          [(1, 0), (1, 0)]) = [1, -1] ∧
      UndecayAverage.outputs cInt cInt64 1 1 2 (UndecayAverage.reset ⟨0, false⟩)
        (DecayingAverage.outputs cInt cInt64 1 1 2 (DecayingAverage.reset ⟨0, false⟩)
          [(1, 0), (1, 0)]) ≠ [1, 1] := by
  decide

/-- C3 (amended). With the coefficients `N1 = 1, N2 = 1, D = 2` and `T = int`,
`TT = int64_t`, both filters freshly reset (or constructed, over any memory contents), for
all `int` values `x0`, `x1`: the first undecayed value is `x0`; the second undecayed value
is `x1 - (x1 rem 2) - (x0 rem 2)` converted to `int`, with `rem` the remainder of the
division truncating toward zero; it is `x1` if and only if `(x0 rem 2) + (x1 rem 2) = 0`,
that is when `x0` and `x1` are both even or both odd with opposite signs; in particular it
is `x1` when both are even. -/
theorem round_trip_1_1_2_exact_iff (x0 x1 f0 f1 : Int) (m : DecayingAverage)
    (m' : UndecayAverage) (h0 : cInt.inRange x0) (h1 : cInt.inRange x1) :
    (UndecayAverage.outputs cInt cInt64 1 1 2 (UndecayAverage.reset m')
        (DecayingAverage.outputs cInt cInt64 1 1 2 (DecayingAverage.reset m)
          [(x0, f0), (x1, f1)]))[0]? = some x0 ∧
      UndecayAverage.outputs cInt cInt64 1 1 2 (UndecayAverage.reset m')
        (DecayingAverage.outputs cInt cInt64 1 1 2 (DecayingAverage.reset m)
          [(x0, f0), (x1, f1)]) =
        [x0, cInt.wrap (x1 - Int.tmod x1 2 - Int.tmod x0 2)] ∧
      (UndecayAverage.outputs cInt cInt64 1 1 2 (UndecayAverage.reset m')
          (DecayingAverage.outputs cInt cInt64 1 1 2 (DecayingAverage.reset m)
            [(x0, f0), (x1, f1)]) = [x0, x1] ↔
        Int.tmod x0 2 + Int.tmod x1 2 = 0) ∧
      (2 ∣ x0 → 2 ∣ x1 →
        UndecayAverage.outputs cInt cInt64 1 1 2 (UndecayAverage.reset m')
          (DecayingAverage.outputs cInt cInt64 1 1 2 (DecayingAverage.reset m)
            [(x0, f0), (x1, f1)]) = [x0, x1]) := by
  have c1 : cInt.inRange 1 := by decide
  have c2 : cInt.inRange 2 := by decide
  have hy : DecayingAverage.outputs cInt cInt64 1 1 2 (DecayingAverage.reset m)
      [(x0, f0), (x1, f1)] = [x0, cInt.wrap (Int.tdiv x1 2 + Int.tdiv x0 2)] := by
    simp only [DecayingAverage.outputs]
    rw [DecayingAverage.decay_filter_int c1 c1 c2 _ (by simp [DecayingAverage.reset]) h0,
      DecayingAverage.decay_filter_int c1 c1 c2 _ (fun _ => h0) h1]
    simp [DecayingAverage.reset]
  have hu : UndecayAverage.outputs cInt cInt64 1 1 2 (UndecayAverage.reset m')
      [x0, cInt.wrap (Int.tdiv x1 2 + Int.tdiv x0 2)] =
      [x0, cInt.wrap (cInt.wrap (Int.tdiv x1 2 + Int.tdiv x0 2) * 2 - x0)] := by
    simp only [UndecayAverage.outputs]
    rw [UndecayAverage.undecay_filter_int c1 c1 c2 _ (by simp [UndecayAverage.reset]) h0,
      UndecayAverage.undecay_filter_int c1 c1 c2 _ (fun _ => h0) (cInt_wrap_inRange _)]
    simp [UndecayAverage.reset]
  have hfit : cInt.inRange (Int.tdiv x1 2 + Int.tdiv x0 2) := by
    simpa using cInt_inRange_half_add_half h1 h0
  have hval : cInt.wrap (Int.tdiv x1 2 + Int.tdiv x0 2) * 2 - x0 =
      x1 - Int.tmod x1 2 - Int.tmod x0 2 := by
    rw [cInt_wrap_of_inRange hfit, Int.tmod_def, Int.tmod_def]
    ring
  rw [hy, hu, hval]
  have hc0 := tmod_two_cases x0
  have hc1 := tmod_two_cases x1
  rw [cInt_inRange_iff] at h0 h1
  refine ⟨by simp, rfl, ?_, ?_⟩
  · simp only [cInt_wrap_eq, List.cons.injEq, and_true, true_and]
    omega
  · intro e0 e1
    simp only [cInt_wrap_eq, List.cons.injEq, and_true, true_and]
    omega

/-- Witness for C3 (amended): the inputs 3 and then -5, both odd and of opposite signs, are
reconstructed. -/
theorem round_trip_1_1_2_exact_iff_witness :
    UndecayAverage.outputs cInt cInt64 1 1 2 (UndecayAverage.reset ⟨7, true⟩)
      (DecayingAverage.outputs cInt cInt64 1 1 2 (DecayingAverage.reset ⟨9, true⟩)
        [(3, 1), (-5, 2)]) = [3, -5] :=
  (round_trip_1_1_2_exact_iff 3 (-5) 1 2 ⟨9, true⟩ ⟨7, true⟩ (by decide)
    (by decide)).2.2.1.2 (by decide)

/-- C4 (counterexample). With `T = int`, `TT = int64_t` and the coefficients `N1 = 2`,
`N2 = 2`, `D = 1`, the inputs `2^30` and then `2^30`: every division is exact, the second
decayed value `2*2^30 + 2*2^30 = 2^32` becomes 0 when it is converted to `int`, and the
second undecayed value is `0/2 - (2^30 * 2)/2 = -2^30`, not the input `2^30`. -/
theorem round_trip_2_2_1_conversion :
    DecayingAverage.outputs cInt cInt64 2 2 1 (DecayingAverage.reset ⟨0, false⟩)
        [(1073741824, 0), (1073741824, 0)] = [1073741824, 0] ∧
      UndecayAverage.outputs cInt cInt64 2 2 1 (UndecayAverage.reset ⟨0, false⟩)
        (DecayingAverage.outputs cInt cInt64 2 2 1 (DecayingAverage.reset ⟨0, false⟩)
          [(1073741824, 0), (1073741824, 0)]) = [1073741824, -1073741824] ∧
      ((1 : Int) ∣ 1073741824 * 2 ∧ (1 : Int) ∣ 1073741824 * 2 ∧
        (2 : Int) ∣ 1073741824 * 2) := by
  refine ⟨by decide, by decide, ?_, ?_, ?_⟩ <;> norm_num

/-- C4 (amended). `T = int`, `TT = int64_t`, any `int` coefficients with `N1` and `D` not
zero, both filters freshly reset (or constructed), any sequence `xs` of `int` inputs (each
with its `fingers` argument), `ys` the decayed outputs and `us` the undecayed outputs of
`ys`.  Then `u_0 = x_0`; and at every step `k + 1` at which the divisions are exact
(`D` divides `x_(k+1) * N1`, `D` divides `y_k * N2`, `N1` divides `y_k * N2`) and the decayed
value `(x_(k+1) * N1) / D + (y_k * N2) / D` is representable in `int`, so that its conversion
to `T` does not change it, `u_(k+1) = x_(k+1)`.  With the instantiated coefficients
`N1 = 1, N2 = 1, D = 2` the decayed value is always representable, and exactness of the two
halvings is enough. -/
theorem round_trip_exact_steps (N1 N2 D : Int) (hN1 : cInt.inRange N1)
    (hN2 : cInt.inRange N2) (hD : cInt.inRange D) (hN1z : N1 ≠ 0) (_hDz : D ≠ 0)
    (m : DecayingAverage) (m' : UndecayAverage) (xs : List (Int × Int))
    (hxs : ∀ xf ∈ xs, cInt.inRange xf.1) :
    (∀ x f : Int, xs[0]? = some (x, f) →
      (UndecayAverage.outputs cInt cInt64 N1 N2 D (UndecayAverage.reset m')
        (DecayingAverage.outputs cInt cInt64 N1 N2 D (DecayingAverage.reset m) xs))[0]? =
          some x) ∧
    (∀ (k : Nat) (x f y : Int), xs[k + 1]? = some (x, f) →
      (DecayingAverage.outputs cInt cInt64 N1 N2 D (DecayingAverage.reset m) xs)[k]? =
        some y →
      D ∣ x * N1 → D ∣ y * N2 → N1 ∣ y * N2 →
      cInt.inRange (Int.tdiv (x * N1) D + Int.tdiv (y * N2) D) →
      (UndecayAverage.outputs cInt cInt64 N1 N2 D (UndecayAverage.reset m')
        (DecayingAverage.outputs cInt cInt64 N1 N2 D (DecayingAverage.reset m) xs))[k + 1]? =
          some x) ∧
    (N1 = 1 → N2 = 1 → D = 2 →
      ∀ (k : Nat) (x f y : Int), xs[k + 1]? = some (x, f) →
      (DecayingAverage.outputs cInt cInt64 N1 N2 D (DecayingAverage.reset m) xs)[k]? =
        some y →
      D ∣ x * N1 → D ∣ y * N2 →
      (UndecayAverage.outputs cInt cInt64 N1 N2 D (UndecayAverage.reset m')
        (DecayingAverage.outputs cInt cInt64 N1 N2 D (DecayingAverage.reset m) xs))[k + 1]? =
          some x) := by
  have hm : (DecayingAverage.reset m).m_lastvalid = true →
      cInt.inRange (DecayingAverage.reset m).m_last := by simp [DecayingAverage.reset]
  have hm' : (UndecayAverage.reset m').m_lastvalid = true →
      cInt.inRange (UndecayAverage.reset m').m_last := by simp [UndecayAverage.reset]
  have step : ∀ (k : Nat) (x f y : Int), xs[k + 1]? = some (x, f) →
      (DecayingAverage.outputs cInt cInt64 N1 N2 D (DecayingAverage.reset m) xs)[k]? =
        some y →
      D ∣ x * N1 → D ∣ y * N2 → N1 ∣ y * N2 →
      cInt.inRange (Int.tdiv (x * N1) D + Int.tdiv (y * N2) D) →
      (UndecayAverage.outputs cInt cInt64 N1 N2 D (UndecayAverage.reset m')
        (DecayingAverage.outputs cInt cInt64 N1 N2 D (DecayingAverage.reset m) xs))[k + 1]? =
          some x := by
    intro k x f y hx hy d1 d2 d3 hfit
    have hxr : cInt.inRange x := hxs (x, f) (List.getElem?_mem hx)
    have hy1 := DecayingAverage.decay_outputs_succ hN1 hN2 hD xs _ hm hxs k x f y hx hy
    rw [cInt_wrap_of_inRange hfit] at hy1
    have hu := UndecayAverage.undecay_outputs_succ hN1 hN2 hD _ _ hm'
      (DecayingAverage.outputs_inRange cInt64 N1 N2 D xs _) k _ y hy1 hy
    rw [hu, tdiv_round_trip hN1z d1 d2 d3, cInt_wrap_of_inRange hxr]
  refine ⟨?_, step, ?_⟩
  · intro x f h0
    cases xs with
    | nil => simp at h0
    | cons a rest =>
      simp only [List.getElem?_cons_zero, Option.some.injEq] at h0
      subst h0
      have hx : cInt.inRange x := hxs (x, f) (by simp)
      simp only [DecayingAverage.outputs, UndecayAverage.outputs, List.getElem?_cons_zero,
        Option.some.injEq]
      rw [DecayingAverage.decay_filter_int hN1 hN2 hD _ hm hx,
        UndecayAverage.undecay_filter_int hN1 hN2 hD _ hm']
      · simp [DecayingAverage.reset, UndecayAverage.reset]
      · simpa [DecayingAverage.reset] using hx
  · intro e1 e2 e3 k x f y hx hy d1 d2
    have hxr : cInt.inRange x := hxs (x, f) (List.getElem?_mem hx)
    have hyr : cInt.inRange y :=
      DecayingAverage.outputs_inRange cInt64 N1 N2 D xs _ y (List.getElem?_mem hy)
    refine step k x f y hx hy d1 d2 ?_ ?_
    · rw [e1]; exact one_dvd _
    · rw [e1, e2, e3]; exact cInt_inRange_half_add_half hxr hyr

/-- Witness for C4 (amended): coefficients `N1 = 2`, `N2 = 4`, `D = 2`, inputs 3 and then 5;
the decayed values are 3 and `5 + 6 = 11`, the second undecayed value is `11 - 6 = 5`. -/
theorem round_trip_exact_steps_witness :
    (UndecayAverage.outputs cInt cInt64 2 4 2 (UndecayAverage.reset ⟨7, true⟩)
      (DecayingAverage.outputs cInt cInt64 2 4 2 (DecayingAverage.reset ⟨9, true⟩)
        [(3, 1), (5, 2)]))[0 + 1]? = some 5 :=
  (round_trip_exact_steps 2 4 2 (by decide) (by decide) (by decide) (by decide) (by decide)
    ⟨9, true⟩ ⟨7, true⟩ [(3, 1), (5, 2)] (by decide)).2.1 0 5 2 3 (by decide) (by decide)
    (by norm_num) (by norm_num) (by norm_num) (by decide)

namespace DecayingAverage

/-- C5 (counterexample). `DecayingAverage<int, int64_t, 2, 2, 1>` fed `2^30` and then
`2^30`: the first call returns `2^30`; the second call returns 0, while
`(x * N1) / D + (p * N2) / D = 2^31 + 2^31 = 2^32`, which the conversion to `int` turns
into 0. -/
theorem decay_filter_2_2_1_narrowed :
    (filter cInt cInt64 2 2 1 (reset ⟨0, false⟩) 1073741824 0).2 = 1073741824 ∧
      (filter cInt cInt64 2 2 1 (filter cInt cInt64 2 2 1 (reset ⟨0, false⟩) 1073741824 0).1
        1073741824 0).2 = 0 ∧
      Int.tdiv (1073741824 * 2) 1 + Int.tdiv (1073741824 * 2) 1 = 4294967296 := by
  decide

/-- C5 (amended). `DecayingAverage<int, int64_t, N1, N2, D>` with `D` not zero.  The first
call of `filter` after `reset()` or after construction returns its input `x` unchanged.  A
later call with input `x'` returns `(x' * N1) / D + (p * N2) / D`, with both divisions
truncating toward zero and `p` the value returned by the previous call, converted to the
return type `int`: it is that very number whenever the number is representable in `int`, and
always so with the instantiated coefficients `N1 = 1, N2 = 1, D = 2`.  No returned value and
no state depends on the `fingers` arguments. -/
theorem filter_spec (N1 N2 D : Int) (hN1 : cInt.inRange N1) (hN2 : cInt.inRange N2)
    (hD : cInt.inRange D) (_hDz : D ≠ 0) (s : DecayingAverage) (x f x' f' : Int)
    (hx : cInt.inRange x) (hx' : cInt.inRange x') :
    (filter cInt cInt64 N1 N2 D (reset s) x f).2 = x ∧
    (filter cInt cInt64 N1 N2 D (construct s) x f).2 = x ∧
    (filter cInt cInt64 N1 N2 D (filter cInt cInt64 N1 N2 D s x f).1 x' f').2 =
      cInt.wrap (Int.tdiv (x' * N1) D +
        Int.tdiv ((filter cInt cInt64 N1 N2 D s x f).2 * N2) D) ∧
    (cInt.inRange (Int.tdiv (x' * N1) D +
        Int.tdiv ((filter cInt cInt64 N1 N2 D s x f).2 * N2) D) →
      (filter cInt cInt64 N1 N2 D (filter cInt cInt64 N1 N2 D s x f).1 x' f').2 =
        Int.tdiv (x' * N1) D + Int.tdiv ((filter cInt cInt64 N1 N2 D s x f).2 * N2) D) ∧
    (N1 = 1 → N2 = 1 → D = 2 →
      (filter cInt cInt64 N1 N2 D (filter cInt cInt64 N1 N2 D s x f).1 x' f').2 =
        Int.tdiv (x' * N1) D + Int.tdiv ((filter cInt cInt64 N1 N2 D s x f).2 * N2) D) ∧
    (∀ g g' : Int,
      filter cInt cInt64 N1 N2 D s x g = filter cInt cInt64 N1 N2 D s x f ∧
      filter cInt cInt64 N1 N2 D (filter cInt cInt64 N1 N2 D s x g).1 x' g' =
        filter cInt cInt64 N1 N2 D (filter cInt cInt64 N1 N2 D s x f).1 x' f') := by
  have hr : (reset s).m_lastvalid = true → cInt.inRange (reset s).m_last := by
    simp [reset]
  have hlater : (filter cInt cInt64 N1 N2 D (filter cInt cInt64 N1 N2 D s x f).1 x' f').2 =
      cInt.wrap (Int.tdiv (x' * N1) D +
        Int.tdiv ((filter cInt cInt64 N1 N2 D s x f).2 * N2) D) := by
    rw [decay_filter_int hN1 hN2 hD _ (fun _ => filter_inRange cInt64 N1 N2 D s x f) hx']
    rfl
  refine ⟨?_, ?_, hlater, ?_, ?_, ?_⟩
  · rw [decay_filter_int hN1 hN2 hD _ hr hx]
    simp [reset]
  · rw [construct, decay_filter_int hN1 hN2 hD _ hr hx]
    simp [reset]
  · intro hfit
    rw [hlater, cInt_wrap_of_inRange hfit]
  · intro e1 e2 e3
    rw [hlater, e1, e2, e3]
    exact cInt_wrap_of_inRange
      (cInt_inRange_half_add_half hx' (filter_inRange cInt64 1 1 2 s x f))
  · intro g g'
    exact ⟨rfl, rfl⟩

/-- Witness for C5: coefficients 1, 1, 2; the inputs 7 and then -4 give 7 and then
`-4/2 + 7/2 = -2 + 3 = 1`. -/
theorem filter_spec_witness :
    (filter cInt cInt64 1 1 2 (filter cInt cInt64 1 1 2 (reset ⟨9, true⟩) 7 1).1 (-4) 2).2 =
      Int.tdiv (-4 * 1) 2 +
        Int.tdiv ((filter cInt cInt64 1 1 2 (reset ⟨9, true⟩) 7 1).2 * 1) 2 :=
  (filter_spec 1 1 2 (by decide) (by decide) (by decide) (by decide) (reset ⟨9, true⟩)
    7 1 (-4) 2 (by decide) (by decide)).2.2.2.1 (by decide)

end DecayingAverage
/-! ## SS4 one-finger fields -/

theorem bitField_lt (v hi lo : Nat) : bitField v hi lo < 2 ^ (hi + 1 - lo) :=
  Nat.mod_lt _ (Nat.pos_pow_of_pos _ (by decide))

/-- Bitwise or of a value below `2 ^ k` and a multiple of `2 ^ k` is their sum. -/
theorem or_eq_add_of_lt {k a : Nat} (h : a < 2 ^ k) (m : Nat) :
    a ||| 2 ^ k * m = a + 2 ^ k * m := by
  rw [Nat.lor_comm, ← Nat.mul_add_lt_is_or h m, Nat.add_comm]

set_option maxRecDepth 100000 in
theorem byte_and_07 : ∀ v : Byte, v.val &&& 0x0007 = bitField v.val 2 0 := by decide

set_option maxRecDepth 100000 in
theorem byte_shl3_and_78 :
    ∀ v : Byte, (v.val <<< 3) &&& 0x0078 = 2 ^ 3 * bitField v.val 3 0 := by decide

set_option maxRecDepth 100000 in
theorem byte_shl2_and_380 :
    ∀ v : Byte, (v.val <<< 2) &&& 0x0380 = 2 ^ 7 * bitField v.val 7 5 := by decide

set_option maxRecDepth 100000 in
theorem byte_shl5_and_1C00 :
    ∀ v : Byte, (v.val <<< 5) &&& 0x1C00 = 2 ^ 10 * bitField v.val 7 5 := by decide

set_option maxRecDepth 100000 in
theorem byte_and_0F : ∀ v : Byte, v.val &&& 0x000F = bitField v.val 3 0 := by decide

set_option maxRecDepth 100000 in
theorem byte_shr2_and_30 :
    ∀ v : Byte, (v.val >>> 2) &&& 0x0030 = 2 ^ 4 * bitField v.val 7 6 := by decide

set_option maxRecDepth 100000 in
theorem byte_shl6_and_3C0 :
    ∀ v : Byte, (v.val <<< 6) &&& 0x03C0 = 2 ^ 6 * bitField v.val 3 0 := by decide

set_option maxRecDepth 100000 in
theorem byte_shl5_and_C00 :
    ∀ v : Byte, (v.val <<< 5) &&& 0x0C00 = 2 ^ 10 * bitField v.val 6 5 := by decide

set_option maxRecDepth 100000 in
theorem byte_shr1_and_70 :
    ∀ v : Byte, (v.val >>> 1) &&& 0x70 = 2 ^ 4 * bitField v.val 7 5 := by decide

set_option maxRecDepth 100000 in
theorem byte_and_80 : ∀ v : Byte, v.val &&& 0x80 = 2 ^ 7 * bitField v.val 7 7 := by decide

/-- C9. For every six-byte packet `b`, with `v[hi:lo]` the bit field `bitField v hi lo`:
`SS4_1F_X_V2(b) = b0[2:0] + 2^3*b1[3:0] + 2^7*b1[7:5] + 2^10*b2[7:5]`,
`SS4_1F_Y_V2(b) = b2[3:0] + 2^4*b3[7:6] + 2^6*b4[3:0] + 2^10*b4[6:5]` and
`SS4_1F_Z_V2(b) = b5[3:0] + 2^4*b5[7:5] + 2^7*b4[7]`. -/
theorem ss4_one_finger_fields (b : Packet) :
    SS4_1F_X_V2 b =
        bitField (b.get 0) 2 0 + 2 ^ 3 * bitField (b.get 1) 3 0 +
          2 ^ 7 * bitField (b.get 1) 7 5 + 2 ^ 10 * bitField (b.get 2) 7 5 ∧
      SS4_1F_Y_V2 b =
        bitField (b.get 2) 3 0 + 2 ^ 4 * bitField (b.get 3) 7 6 +
          2 ^ 6 * bitField (b.get 4) 3 0 + 2 ^ 10 * bitField (b.get 4) 6 5 ∧
      SS4_1F_Z_V2 b =
        bitField (b.get 5) 3 0 + 2 ^ 4 * bitField (b.get 5) 7 5 +
          2 ^ 7 * bitField (b.get 4) 7 7 := by
  refine ⟨?_, ?_, ?_⟩
  · simp only [SS4_1F_X_V2, Packet.get]
    rw [byte_and_07, byte_shl3_and_78, byte_shl2_and_380, byte_shl5_and_1C00]
    have h0 := bitField_lt b.b0.val 2 0
    have h1 := bitField_lt b.b1.val 3 0
    have h2 := bitField_lt b.b1.val 7 5
    rw [@or_eq_add_of_lt 3 _ (by omega), @or_eq_add_of_lt 7 _ (by omega),
      @or_eq_add_of_lt 10 _ (by omega)]
  · simp only [SS4_1F_Y_V2, Packet.get]
    rw [byte_and_0F, byte_shr2_and_30, byte_shl6_and_3C0, byte_shl5_and_C00]
    have h0 := bitField_lt b.b2.val 3 0
    have h1 := bitField_lt b.b3.val 7 6
    have h2 := bitField_lt b.b4.val 3 0
    rw [@or_eq_add_of_lt 4 _ (by omega), @or_eq_add_of_lt 6 _ (by omega),
      @or_eq_add_of_lt 10 _ (by omega)]
  · simp only [SS4_1F_Z_V2, Packet.get]
    rw [byte_and_0F, byte_shr1_and_70, byte_and_80]
    have h0 := bitField_lt b.b5.val 3 0
    have h1 := bitField_lt b.b5.val 7 5
    rw [@or_eq_add_of_lt 4 _ (by omega), @or_eq_add_of_lt 7 _ (by omega)]

/-- C10. For every six-byte packet `b` with `SS4_IS_IDLE_V2(b)`: `SS4_BTN_V2(b) = 0`,
`SS4_1F_Z_V2(b) = 0`, `SS4_1F_X_V2(b) = 0` and `SS4_1F_LFB_V2(b)` is false. -/
theorem ss4_idle_no_activity (b : Packet) (h : SS4_IS_IDLE_V2 b = true) :
    SS4_BTN_V2 b = 0 ∧ SS4_1F_Z_V2 b = 0 ∧ SS4_1F_X_V2 b = 0 ∧ SS4_1F_LFB_V2 b = false := by
  simp only [SS4_IS_IDLE_V2, Packet.get, Bool.and_eq_true, beq_iff_eq] at h
  obtain ⟨⟨⟨⟨⟨h0, h1⟩, h2⟩, -⟩, h4⟩, h5⟩ := h
  simp only [SS4_BTN_V2, SS4_1F_Z_V2, SS4_1F_X_V2, SS4_1F_LFB_V2, Packet.get, h0, h1, h2, h4,
    h5, SS4_MASK_NORMAL_BUTTONS]
  decide

/-- Witness for C10: the idle packet `18 10 00 08 10 00`. -/
theorem ss4_idle_no_activity_witness :
    SS4_IS_IDLE_V2 ⟨0x18, 0x10, 0x00, 0x08, 0x10, 0x00⟩ = true ∧
      (SS4_BTN_V2 ⟨0x18, 0x10, 0x00, 0x08, 0x10, 0x00⟩ = 0 ∧
        SS4_1F_Z_V2 ⟨0x18, 0x10, 0x00, 0x08, 0x10, 0x00⟩ = 0 ∧
        SS4_1F_X_V2 ⟨0x18, 0x10, 0x00, 0x08, 0x10, 0x00⟩ = 0 ∧
        SS4_1F_LFB_V2 ⟨0x18, 0x10, 0x00, 0x08, 0x10, 0x00⟩ = false) :=
  ⟨by decide, ss4_idle_no_activity ⟨0x18, 0x10, 0x00, 0x08, 0x10, 0x00⟩ (by decide)⟩

/-! ## The undecay filter, the reconstruction error and the low-pass bound -/

namespace UndecayAverage

/-- C11 (counterexample). `UndecayAverage<int, int64_t, 1, 1, 2>` fed 0 and then `2^30`: the
first call returns 0; the second call returns `-2^31`, while
`(y * D) / N1 - (q * N2) / N1 = 2^31 - 0 = 2^31`, which the conversion to `int` turns into
`-2^31`. -/
theorem undecay_filter_1_1_2_narrowed :
    (filter cInt cInt64 1 1 2 (reset ⟨0, false⟩) 0).2 = 0 ∧
      (filter cInt cInt64 1 1 2 (filter cInt cInt64 1 1 2 (reset ⟨0, false⟩) 0).1
        1073741824).2 = -2147483648 ∧
      Int.tdiv (1073741824 * 2) 1 - Int.tdiv (0 * 1) 1 = 2147483648 := by
  decide

/-- C11 (amended). `UndecayAverage<int, int64_t, N1, N2, D>` with `N1` not zero.  The first
call of `filter` after `reset()` or after construction returns its input unchanged.  Every
call stores its input `y` (not the value it returns).  A later call with input `y'` returns
`(y' * D) / N1 - (q * N2) / N1`, with both divisions truncating toward zero and `q` the
input of the previous call, converted to the return type `int`: it is that very number
whenever the number is representable in `int`. -/
theorem undecay_filter_spec (N1 N2 D : Int) (hN1 : cInt.inRange N1) (hN2 : cInt.inRange N2)
    (hD : cInt.inRange D) (_hN1z : N1 ≠ 0) (s : UndecayAverage) (y y' : Int)
    (hy : cInt.inRange y) (hy' : cInt.inRange y') :
    (filter cInt cInt64 N1 N2 D (reset s) y).2 = y ∧
    (filter cInt cInt64 N1 N2 D (construct s) y).2 = y ∧
    (filter cInt cInt64 N1 N2 D s y).1 = ⟨y, true⟩ ∧
    (filter cInt cInt64 N1 N2 D (filter cInt cInt64 N1 N2 D s y).1 y').2 =
      cInt.wrap (Int.tdiv (y' * D) N1 - Int.tdiv (y * N2) N1) ∧
    (cInt.inRange (Int.tdiv (y' * D) N1 - Int.tdiv (y * N2) N1) →
      (filter cInt cInt64 N1 N2 D (filter cInt cInt64 N1 N2 D s y).1 y').2 =
        Int.tdiv (y' * D) N1 - Int.tdiv (y * N2) N1) := by
  have hr : (reset s).m_lastvalid = true → cInt.inRange (reset s).m_last := by
    simp [reset]
  have hst : (filter cInt cInt64 N1 N2 D s y).1 = ⟨y, true⟩ := by
    simp only [filter]
    rw [cInt_wrap_of_inRange hy]
  have hlater : (filter cInt cInt64 N1 N2 D (filter cInt cInt64 N1 N2 D s y).1 y').2 =
      cInt.wrap (Int.tdiv (y' * D) N1 - Int.tdiv (y * N2) N1) := by
    rw [hst, undecay_filter_int hN1 hN2 hD _ (fun _ => hy) hy']
    simp
  refine ⟨?_, ?_, hst, hlater, ?_⟩
  · rw [undecay_filter_int hN1 hN2 hD _ hr hy]
    simp [reset]
  · rw [construct, undecay_filter_int hN1 hN2 hD _ hr hy]
    simp [reset]
  · intro hfit
    rw [hlater, cInt_wrap_of_inRange hfit]

/-- Witness for C11: coefficients 1, 1, 2; the inputs 7 and then 5 give 7 and then
`(5 * 2) / 1 - (7 * 1) / 1 = 3`. -/
theorem undecay_filter_spec_witness :
    (filter cInt cInt64 1 1 2 (filter cInt cInt64 1 1 2 (reset ⟨9, true⟩) 7).1 5).2 =
      Int.tdiv (5 * 2) 1 - Int.tdiv (7 * 1) 1 :=
  (undecay_filter_spec 1 1 2 (by decide) (by decide) (by decide) (by decide)
    (reset ⟨9, true⟩) 7 5 (by decide) (by decide)).2.2.2.2 (by decide)

end UndecayAverage

/-- C16 (counterexample). Coefficients 1, 1, 2, inputs -1 and then 1: the decayed values are
-1 and `1/2 + (-1)/2 = 0`, the undecayed values are -1 and `2*0 - (-1) = 1`.  The second
undecayed value equals the second input although `x_1 = 1` and `y_0 = -1` are both odd. -/
theorem undecay_exact_on_odd_inputs :
    DecayingAverage.outputs cInt cInt64 1 1 2 (DecayingAverage.reset ⟨0, false⟩)
        [(-1, 0), (1, 0)] = [-1, 0] ∧
      UndecayAverage.outputs cInt cInt64 1 1 2 (UndecayAverage.reset ⟨0, false⟩)
        (DecayingAverage.outputs cInt cInt64 1 1 2 (DecayingAverage.reset ⟨0, false⟩)
          [(-1, 0), (1, 0)]) = [-1, 1] ∧
      Int.tmod 1 2 = 1 ∧ Int.tmod (-1) 2 = -1 := by
  decide

/-- C16 (amended). Coefficients `N1 = 1, N2 = 1, D = 2`, `T = int`, `TT = int64_t`, both
filters freshly reset (or constructed), any sequence `xs` of `int` inputs, `ys` the decayed
and `us` the undecayed outputs.  At every step `k + 1` the undecayed value is
`x - (x rem 2) - (y rem 2)` converted to `int`, where `x = x_(k+1)`, `y = y_k` and `rem` is
the remainder of the division truncating toward zero.  When that number is representable in
`int` (no overflow), the undecayed value `u` is that number, `|u - x| <= 2`, `u = x` if and
only if `(x rem 2) + (y rem 2) = 0`, and in particular `u = x` when `x` and `y` are both
even. -/
theorem undecay_error_1_1_2 (m : DecayingAverage) (m' : UndecayAverage)
    (xs : List (Int × Int)) (hxs : ∀ xf ∈ xs, cInt.inRange xf.1) (k : Nat) (x f y : Int)
    (hx : xs[k + 1]? = some (x, f))
    (hy : (DecayingAverage.outputs cInt cInt64 1 1 2 (DecayingAverage.reset m) xs)[k]? =
      some y) :
    (UndecayAverage.outputs cInt cInt64 1 1 2 (UndecayAverage.reset m')
        (DecayingAverage.outputs cInt cInt64 1 1 2 (DecayingAverage.reset m) xs))[k + 1]? =
      some (cInt.wrap (x - Int.tmod x 2 - Int.tmod y 2)) ∧
    (cInt.inRange (x - Int.tmod x 2 - Int.tmod y 2) →
      ∀ u : Int,
        (UndecayAverage.outputs cInt cInt64 1 1 2 (UndecayAverage.reset m')
          (DecayingAverage.outputs cInt cInt64 1 1 2 (DecayingAverage.reset m) xs))[k + 1]? =
            some u →
        u = x - Int.tmod x 2 - Int.tmod y 2 ∧ |u - x| ≤ 2 ∧
          (u = x ↔ Int.tmod x 2 + Int.tmod y 2 = 0) ∧ (2 ∣ x → 2 ∣ y → u = x)) := by
  have c1 : cInt.inRange 1 := by decide
  have c2 : cInt.inRange 2 := by decide
  have hm : (DecayingAverage.reset m).m_lastvalid = true →
      cInt.inRange (DecayingAverage.reset m).m_last := by simp [DecayingAverage.reset]
  have hm' : (UndecayAverage.reset m').m_lastvalid = true →
      cInt.inRange (UndecayAverage.reset m').m_last := by simp [UndecayAverage.reset]
  have hxr : cInt.inRange x := hxs (x, f) (List.getElem?_mem hx)
  have hyr : cInt.inRange y :=
    DecayingAverage.outputs_inRange cInt64 1 1 2 xs _ y (List.getElem?_mem hy)
  have hy1 := DecayingAverage.decay_outputs_succ c1 c1 c2 xs _ hm hxs k x f y hx hy
  rw [cInt_wrap_of_inRange (cInt_inRange_half_add_half hxr hyr)] at hy1
  have hu := UndecayAverage.undecay_outputs_succ c1 c1 c2 _ _ hm'
    (DecayingAverage.outputs_inRange cInt64 1 1 2 xs _) k _ y hy1 hy
  have hval : Int.tdiv ((Int.tdiv (x * 1) 2 + Int.tdiv (y * 1) 2) * 2) 1 -
      Int.tdiv (y * 1) 1 = x - Int.tmod x 2 - Int.tmod y 2 := by
    rw [Int.tdiv_one, Int.tdiv_one, Int.mul_one, Int.mul_one, Int.tmod_def, Int.tmod_def]
    ring
  rw [hval] at hu
  refine ⟨hu, ?_⟩
  intro hfit u hu'
  rw [hu, cInt_wrap_of_inRange hfit, Option.some.injEq] at hu'
  subst hu'
  have hcx := tmod_two_cases x
  have hcy := tmod_two_cases y
  refine ⟨rfl, ?_, ?_, ?_⟩
  · rw [abs_le]
    omega
  · omega
  · intro ex ey
    omega

/-- Witness for C16 (amended): the inputs 3 and then 6 give the decayed values 3 and
`3 + 1 = 4` and the second undecayed value `2*4 - 3 = 5 = 6 - 0 - 1`. -/
theorem undecay_error_1_1_2_witness :
    (UndecayAverage.outputs cInt cInt64 1 1 2 (UndecayAverage.reset ⟨7, true⟩)
        (DecayingAverage.outputs cInt cInt64 1 1 2 (DecayingAverage.reset ⟨9, true⟩)
          [(3, 1), (6, 2)]))[0 + 1]? =
      some (cInt.wrap (6 - Int.tmod 6 2 - Int.tmod 3 2)) :=
  (undecay_error_1_1_2 ⟨9, true⟩ ⟨7, true⟩ [(3, 1), (6, 2)] (by decide) 0 6 2 3
    (by decide) (by decide)).1

namespace DecayingAverage

/-- C18. `DecayingAverage<int, int64_t, 1, 1, 2>` after the first call, that is on an object
whose stored value is the previous output `p` (an `int`): the call `filter(x, f)` returns
`y = x/2 + p/2` with both divisions truncating toward zero, without overflow, and
`min(x,p) - 1 <= y <= max(x,p) + 1` and `|y| <= max(|x|,|p|)`. -/
theorem decay_bounded_1_1_2 (x p f : Int) (hx : cInt.inRange x) (hp : cInt.inRange p) :
    (filter cInt cInt64 1 1 2 ⟨p, true⟩ x f).2 = Int.tdiv x 2 + Int.tdiv p 2 ∧
      min x p - 1 ≤ (filter cInt cInt64 1 1 2 ⟨p, true⟩ x f).2 ∧
      (filter cInt cInt64 1 1 2 ⟨p, true⟩ x f).2 ≤ max x p + 1 ∧
      |(filter cInt cInt64 1 1 2 ⟨p, true⟩ x f).2| ≤ max |x| |p| := by
  have c1 : cInt.inRange 1 := by decide
  have c2 : cInt.inRange 2 := by decide
  have hval : (filter cInt cInt64 1 1 2 ⟨p, true⟩ x f).2 = Int.tdiv x 2 + Int.tdiv p 2 := by
    rw [decay_filter_int c1 c1 c2 _ (fun _ => hp) hx]
    simp only [if_true]
    rw [cInt_wrap_of_inRange (cInt_inRange_half_add_half hx hp), Int.mul_one, Int.mul_one]
  rw [hval]
  have ex := Int.tmod_def x 2
  have ep := Int.tmod_def p 2
  have hcx := tmod_two_cases x
  have hcp := tmod_two_cases p
  refine ⟨rfl, by omega, by omega, ?_⟩
  rcases abs_cases x with ⟨h1, _⟩ | ⟨h1, _⟩ <;>
    rcases abs_cases p with ⟨h2, _⟩ | ⟨h2, _⟩ <;>
    rw [h1, h2, abs_le] <;> omega

/-- Witness for C18: the previous output 7 and the input -4 give `-2 + 3 = 1`. -/
theorem decay_bounded_1_1_2_witness :
    (filter cInt cInt64 1 1 2 ⟨7, true⟩ (-4) 0).2 = Int.tdiv (-4) 2 + Int.tdiv 7 2 ∧
      min (-4) 7 - 1 ≤ (filter cInt cInt64 1 1 2 ⟨7, true⟩ (-4) 0).2 ∧
      (filter cInt cInt64 1 1 2 ⟨7, true⟩ (-4) 0).2 ≤ max (-4) 7 + 1 ∧
      |(filter cInt cInt64 1 1 2 ⟨7, true⟩ (-4) 0).2| ≤ max |(-4 : Int)| |(7 : Int)| :=
  decay_bounded_1_1_2 (-4) 7 0 (by decide) (by decide)

end DecayingAverage

/-! ## The state invariant of `SimpleAverage` over sequences of calls -/

namespace SimpleAverage

theorem tracks_foldl_call (T : CIntType) {N : Nat} (hN : 1 ≤ N) (cs : List Call) :
    ∀ (s : SimpleAverage) (xs : List Int), Tracks N s xs →
      Tracks N (cs.foldl (call T N) s)
        (cs.foldl (fun acc c => match c with
          | Call.reset => []
          | Call.filter data => acc ++ [data]) xs) := by
  induction cs with
  | nil => intro s xs h; exact h
  | cons c rest ih =>
    intro s xs h
    simp only [List.foldl_cons]
    apply ih
    cases c with
    | reset => exact tracks_reset N s
    | filter data => exact tracks_filter T hN h data

/-- After any sequence of calls on a constructed object, the object tracks the samples fed
since the last reset. -/
theorem tracks_run (T : CIntType) {N : Nat} (hN : 1 ≤ N) (mem : SimpleAverage)
    (cs : List Call) : Tracks N (run T N (construct mem) cs) (sinceReset cs) :=
  tracks_foldl_call T hN cs (construct mem) [] (tracks_reset N mem)

/-- When a sample was fed since the last reset, the last call is a `filter`. -/
theorem last_call_of_sinceReset (cs : List Call) (h : 1 ≤ (sinceReset cs).length) :
    ∃ (cs' : List Call) (x : Int), cs = cs' ++ [Call.filter x] := by
  rcases List.eq_nil_or_concat cs with rfl | ⟨cs', c, hc⟩
  · simp [sinceReset] at h
  · rw [List.concat_eq_append] at hc
    subst hc
    cases c with
    | reset => simp [sinceReset, List.foldl_append] at h
    | filter x => exact ⟨cs', x, rfl⟩

/-- C12. `SimpleAverage<int, N>` with `N >= 1`, after any sequence `cs` of `reset()` and
`filter()` calls on a constructed object, with `xs` the samples fed since the last reset
(or construction) and `k` their number: `count() = min k N`; the write index is `k mod N`
and lies in `[0, N)`; `sum()` is the `int` value of the sum of the last `min k N` samples,
which is that sum itself when it is representable in `int` (no overflow); and when
`k >= 1` the last call is a `filter()` and `average()` is the value it returned. -/
theorem state_invariant (N : Nat) (hN : 1 ≤ N) (mem : SimpleAverage) (cs : List Call) :
    count (run cInt N (construct mem) cs) = ((min (sinceReset cs).length N : Nat) : Int) ∧
    (run cInt N (construct mem) cs).m_index = (((sinceReset cs).length % N : Nat) : Int) ∧
    0 ≤ (run cInt N (construct mem) cs).m_index ∧
    (run cInt N (construct mem) cs).m_index < (N : Int) ∧
    sum (run cInt N (construct mem) cs) =
      cInt.wrap (lastN (min (sinceReset cs).length N) (sinceReset cs)).sum ∧
    (cInt.inRange (lastN (min (sinceReset cs).length N) (sinceReset cs)).sum →
      sum (run cInt N (construct mem) cs) =
        (lastN (min (sinceReset cs).length N) (sinceReset cs)).sum) ∧
    (1 ≤ (sinceReset cs).length →
      ∃ (cs' : List Call) (x : Int), cs = cs' ++ [Call.filter x] ∧
        average cInt (run cInt N (construct mem) cs) =
          (filter cInt N (run cInt N (construct mem) cs') x).2) := by
  have ht := tracks_run cInt hN mem cs
  have hr : (sinceReset cs).length % N < N := Nat.mod_lt _ (by omega)
  have hsum : sum (run cInt N (construct mem) cs) =
      cInt.wrap (lastN (min (sinceReset cs).length N) (sinceReset cs)).sum := by
    rw [lastN_min_length]
    exact ht.sum_eq
  refine ⟨ht.count_eq, ht.index_eq, ?_, ?_, hsum, ?_, ?_⟩
  · rw [ht.index_eq]; omega
  · rw [ht.index_eq]; omega
  · intro hfit
    rw [hsum, cInt_wrap_of_inRange hfit]
  · intro hk
    obtain ⟨cs', x, rfl⟩ := last_call_of_sinceReset cs hk
    refine ⟨cs', x, rfl, ?_⟩
    have hrun : run cInt N (construct mem) (cs' ++ [Call.filter x]) =
        (filter cInt N (run cInt N (construct mem) cs') x).1 := by
      simp [run, call, List.foldl_append]
    have hc : (filter cInt N (run cInt N (construct mem) cs') x).1.m_count ≠ 0 := by
      rw [← hrun, ht.count_eq]
      omega
    rw [hrun, filter_snd, average, if_neg hc]

/-- Witness for C12: window 2, the calls `filter(1)`, `reset()`, `filter(2)`, `filter(3)`,
`filter(7)`: three samples since the reset, count 2, index 1, sum 10. -/
theorem state_invariant_witness :
    count (run cInt 2 (construct ⟨fun _ => 9, 5, 6, 7⟩)
        [Call.filter 1, Call.reset, Call.filter 2, Call.filter 3, Call.filter 7]) = 2 ∧
      (run cInt 2 (construct ⟨fun _ => 9, 5, 6, 7⟩)
        [Call.filter 1, Call.reset, Call.filter 2, Call.filter 3, Call.filter 7]).m_index =
          1 ∧
      sum (run cInt 2 (construct ⟨fun _ => 9, 5, 6, 7⟩)
        [Call.filter 1, Call.reset, Call.filter 2, Call.filter 3, Call.filter 7]) = 10 := by
  have h := state_invariant 2 (by decide) ⟨fun _ => 9, 5, 6, 7⟩
    [Call.filter 1, Call.reset, Call.filter 2, Call.filter 3, Call.filter 7]
  exact ⟨h.1, h.2.1, h.2.2.2.2.2.1 (by decide)⟩

end SimpleAverage

/-! ## Every access of `SimpleAverage` is defined -/

namespace Checked

theorem safe_reset {N : Nat} (hN : 1 ≤ N) (c : Checked) : Safe N (reset c) := by
  refine ⟨?_, ?_, ?_, ?_, ?_, ?_⟩ <;> simp only [reset, SimpleAverage.reset]
  · exact le_refl _
  · omega
  · exact le_refl _
  · omega
  · intro _; trivial
  · intro i h0 h1; omega

/-- On a safe object `filter` has a result, the result of the member function, and the
object stays safe. -/
theorem filter_safe (T : CIntType) {N : Nat} (hN : 1 ≤ N) {c : Checked} (h : Safe N c)
    (x : Int) :
    filter T N c x =
        some (⟨(SimpleAverage.filter T N c.obj x).1,
          Function.update c.written c.obj.m_index true⟩,
          (SimpleAverage.filter T N c.obj x).2) ∧
      Safe N ⟨(SimpleAverage.filter T N c.obj x).1,
        Function.update c.written c.obj.m_index true⟩ := by
  obtain ⟨h1, h2, h3, h4, h5, h6⟩ := h
  have hw : write N c c.obj.m_index x =
      some ⟨{ c.obj with m_buffer := Function.update c.obj.m_buffer c.obj.m_index x },
        Function.update c.written c.obj.m_index true⟩ := by
    simp [write, h3, h4]
  have hcnt :
      (if c.obj.m_count < (N : Int) then c.obj.m_count + 1 else c.obj.m_count) ≠ 0 := by
    split <;> omega
  constructor
  · by_cases hfull : c.obj.m_count = (N : Int)
    · have hrd : read N c c.obj.m_index = some (c.obj.m_buffer c.obj.m_index) := by
        simp [read, h3, h4, h6 _ h3 (by omega)]
      simp only [filter, hw, hrd, if_pos hfull, cdiv, if_neg hcnt, Option.map_some',
        Option.some_bind, SimpleAverage.filter]
    · simp only [filter, hw, if_neg hfull, cdiv, if_neg hcnt, Option.map_some',
        Option.some_bind, SimpleAverage.filter]
  · refine ⟨?_, ?_, ?_, ?_, ?_, ?_⟩ <;> simp only [SimpleAverage.filter]
    · split <;> omega
    · split <;> omega
    · split <;> omega
    · split <;> omega
    · intro hlt
      split at hlt <;> split <;> omega
    · intro i h0 hi
      by_cases hidx : i = c.obj.m_index
      · rw [hidx, Function.update_same]
      · rw [Function.update_noteq hidx]
        apply h6 i h0
        split at hi <;> omega

theorem run_safe (T : CIntType) {N : Nat} (hN : 1 ≤ N) (cs : List Call) :
    ∀ c : Checked, Safe N c →
      ∃ c' : Checked, run T N c cs = some c' ∧
        c'.obj = SimpleAverage.run T N c.obj cs ∧ Safe N c' := by
  induction cs with
  | nil => intro c h; exact ⟨c, rfl, rfl, h⟩
  | cons a rest ih =>
    intro c h
    cases a with
    | reset =>
      obtain ⟨c', e1, e2, e3⟩ := ih (reset c) (safe_reset hN c)
      refine ⟨c', ?_, ?_, e3⟩
      · simpa [run, call] using e1
      · simpa [SimpleAverage.run, SimpleAverage.call, reset] using e2
    | filter x =>
      obtain ⟨hf, hs⟩ := filter_safe T hN h x
      obtain ⟨c', e1, e2, e3⟩ := ih _ hs
      refine ⟨c', ?_, ?_, e3⟩
      · simpa [run, call, hf] using e1
      · simpa [SimpleAverage.run, SimpleAverage.call] using e2

theorem average_defined (T : CIntType) (c : Checked) :
    average T c = some (SimpleAverage.average T c.obj) := by
  by_cases h0 : c.obj.m_count = 0
  · simp [average, SimpleAverage.average, h0]
  · simp [average, SimpleAverage.average, h0, cdiv]

theorem oldest_safe {N : Nat} {c : Checked} (h : Safe N c) :
    oldest N c = some (SimpleAverage.oldest N c.obj) := by
  obtain ⟨h1, h2, h3, h4, h5, h6⟩ := h
  by_cases h0 : c.obj.m_count = 0
  · simp [oldest, SimpleAverage.oldest, h0]
  · by_cases hlt : c.obj.m_count < (N : Int)
    · have hw := h6 0 (le_refl _) (by omega)
      have hN0 : (0 : Int) < (N : Int) := by omega
      simp [oldest, SimpleAverage.oldest, h0, hlt, read, hw, hN0]
    · have hw := h6 c.obj.m_index h3 (by omega)
      simp [oldest, SimpleAverage.oldest, h0, hlt, read, hw, h3, h4]

theorem newest_safe {N : Nat} {c : Checked} (h : Safe N c) :
    newest N c = some (SimpleAverage.newest c.obj) := by
  obtain ⟨h1, h2, h3, h4, h5, h6⟩ := h
  by_cases h0 : c.obj.m_count = 0
  · simp [newest, SimpleAverage.newest, h0]
  · simp only [newest, SimpleAverage.newest, if_neg h0]
    by_cases hneg : c.obj.m_index - 1 < 0
    · have hw := h6 (c.obj.m_count - 1) (by omega) (by omega)
      have hb1 : 0 ≤ c.obj.m_count - 1 := by omega
      have hb2 : c.obj.m_count - 1 < (N : Int) := by omega
      simp [read, hneg, hw, hb1, hb2]
    · have hlt : c.obj.m_index - 1 < c.obj.m_count := by
        by_cases hc : c.obj.m_count < (N : Int)
        · rw [h5 hc]; omega
        · omega
      have hb1 : 0 ≤ c.obj.m_index - 1 := by omega
      have hb2 : c.obj.m_index - 1 < (N : Int) := by omega
      have hw := h6 (c.obj.m_index - 1) hb1 hlt
      simp [read, hneg, hw, hb1, hb2]

/-- C13. `SimpleAverage<T, N>` with `N >= 1`, after any sequence `cs` of `reset()` and
`filter()` calls on a constructed object.  In the version of the class in which an access to
`m_buffer` outside `[0, N)`, a read of a slot not written since the last reset and a
division by zero have no result, every call of the sequence has a result and the object is
the one the member functions compute; a further `filter(x)` has a result, the value the
member function returns, and divides by a count that is at least 1; and `average()`,
`oldest()` and `newest()` have a result, the value the member functions return. -/
theorem accesses_defined (T : CIntType) (N : Nat) (hN : 1 ≤ N) (mem : SimpleAverage)
    (cs : List Call) :
    ∃ c : Checked, run T N (construct mem) cs = some c ∧
      c.obj = SimpleAverage.run T N (SimpleAverage.construct mem) cs ∧
      (∀ x : Int, 1 ≤ (SimpleAverage.filter T N c.obj x).1.m_count ∧
        ∃ c' : Checked, filter T N c x = some (c', (SimpleAverage.filter T N c.obj x).2)) ∧
      average T c = some (SimpleAverage.average T c.obj) ∧
      oldest N c = some (SimpleAverage.oldest N c.obj) ∧
      newest N c = some (SimpleAverage.newest c.obj) := by
  obtain ⟨c, e1, e2, e3⟩ := run_safe T hN cs (construct mem) (safe_reset hN _)
  refine ⟨c, e1, ?_, ?_, average_defined T c, oldest_safe e3, newest_safe e3⟩
  · simpa [construct, reset, SimpleAverage.construct] using e2
  · intro x
    obtain ⟨hf, hs⟩ := filter_safe T hN e3 x
    refine ⟨?_, _, hf⟩
    have hc := e3.count_nonneg
    simp only [SimpleAverage.filter]
    split <;> omega

/-- Witness for C13: window 2, the calls `filter(1)`, `reset()`, `filter(2)`, `filter(3)`,
`filter(7)` all have a result, and then `newest()` is 7 and `oldest()` is 3. -/
theorem accesses_defined_witness :
    ∃ c : Checked, run cInt 2 (construct ⟨fun _ => 9, 5, 6, 7⟩)
        [Call.filter 1, Call.reset, Call.filter 2, Call.filter 3, Call.filter 7] = some c ∧
      newest 2 c = some 7 ∧ oldest 2 c = some 3 := by
  obtain ⟨c, h1, h2, -, -, h5, h6⟩ := accesses_defined cInt 2 (by decide)
    ⟨fun _ => 9, 5, 6, 7⟩
    [Call.filter 1, Call.reset, Call.filter 2, Call.filter 3, Call.filter 7]
  refine ⟨c, h1, ?_, ?_⟩
  · rw [h6, h2]; decide
  · rw [h5, h2]; decide

end Checked

/-! ## SS4 multi-finger fields, trackstick fields and the one-finger encoding -/

set_option maxRecDepth 100000 in
theorem byte_shl5_and_E0 :
    ∀ v : Byte, (v.val <<< 5) &&& 0x00E0 = 2 ^ 5 * bitField v.val 2 0 := by decide

set_option maxRecDepth 100000 in
theorem byte_shl5_and_1F00 :
    ∀ v : Byte, (v.val <<< 5) &&& 0x1F00 = 2 ^ 8 * bitField v.val 7 3 := by decide

set_option maxRecDepth 100000 in
theorem byte_shr3_and_10 :
    ∀ v : Byte, (v.val >>> 3) &&& 0x0010 = 2 ^ 4 * bitField v.val 7 7 := by decide

set_option maxRecDepth 100000 in
theorem byte_shl4_and_70 :
    ∀ v : Byte, (v.val <<< 4) &&& 0x0070 = 2 ^ 4 * bitField v.val 2 0 := by decide

set_option maxRecDepth 100000 in
theorem byte_shl4_and_F80 :
    ∀ v : Byte, (v.val <<< 4) &&& 0x0F80 = 2 ^ 7 * bitField v.val 7 3 := by decide

set_option maxRecDepth 100000 in
theorem byte_shr4_and_08 :
    ∀ v : Byte, (v.val >>> 4) &&& 0x0008 = 2 ^ 3 * bitField v.val 7 7 := by decide

set_option maxRecDepth 100000 in
theorem byte_shl3_and_10 :
    ∀ v : Byte, (v.val <<< 3) &&& 0x0010 = 2 ^ 4 * bitField v.val 1 1 := by decide

set_option maxRecDepth 100000 in
theorem byte_shl5_and_1E0 :
    ∀ v : Byte, (v.val <<< 5) &&& 0x01E0 = 2 ^ 5 * bitField v.val 3 0 := by decide

set_option maxRecDepth 100000 in
theorem byte_shl4_and_E00 :
    ∀ v : Byte, (v.val <<< 4) &&& 0x0E00 = 2 ^ 9 * bitField v.val 7 5 := by decide

set_option maxRecDepth 100000 in
theorem byte_shr3_and_08 :
    ∀ v : Byte, (v.val >>> 3) &&& 0x0008 = 2 ^ 3 * bitField v.val 6 6 := by decide

/-- Bitwise or of a multiple of `2 ^ k` and a value below `2 ^ k` is their sum. -/
theorem mul_or_eq_add_of_lt {k a : Nat} (h : a < 2 ^ k) (m : Nat) :
    2 ^ k * m ||| a = 2 ^ k * m + a :=
  (Nat.mul_add_lt_is_or h m).symm

/-- The standard multi-finger X field of the bytes `v0`, `v1` of a slot. -/
theorem mf_x_std_bytes (v0 v1 : Byte) :
    ((v0.val <<< 5) &&& 0x00E0) ||| ((v1.val <<< 5) &&& 0x1F00) =
      2 ^ 5 * (bitField v0.val 2 0 + 2 ^ 3 * bitField v1.val 7 3) := by
  rw [byte_shl5_and_E0, byte_shl5_and_1F00]
  have h0 := bitField_lt v0.val 2 0
  rw [@or_eq_add_of_lt 8 _ (by omega)]
  omega

/-- The SS4-Plus standard multi-finger X field of the bytes `v0`, `v1` of a slot. -/
theorem mf_x_plus_bytes (v0 v1 : Byte) :
    ((v0.val <<< 4) &&& 0x0070) ||| ((v1.val <<< 4) &&& 0x0F80) =
      2 ^ 4 * (bitField v0.val 2 0 + 2 ^ 3 * bitField v1.val 7 3) := by
  rw [byte_shl4_and_70, byte_shl4_and_F80]
  have h0 := bitField_lt v0.val 2 0
  rw [@or_eq_add_of_lt 7 _ (by omega)]
  omega

/-- The standard multi-finger Y field of the bytes `v1`, `v2` of a slot. -/
theorem mf_y_std_bytes (v1 v2 : Byte) :
    ((v1.val <<< 3) &&& 0x0010) ||| ((v2.val <<< 5) &&& 0x01E0) |||
        ((v2.val <<< 4) &&& 0x0E00) =
      2 ^ 4 * (bitField v1.val 1 1 + 2 * bitField v2.val 3 0 +
        2 ^ 5 * bitField v2.val 7 5) := by
  rw [byte_shl3_and_10, byte_shl5_and_1E0, byte_shl4_and_E00]
  have h0 := bitField_lt v1.val 1 1
  have h1 := bitField_lt v2.val 3 0
  rw [@or_eq_add_of_lt 5 _ (by omega), @or_eq_add_of_lt 9 _ (by omega)]
  omega

/-- The six multi-finger fields of the three bytes of a slot, against their bounds. -/
theorem mf_fields_le (v0 v1 v2 : Byte) :
    ((v0.val <<< 5) &&& 0x00E0) ||| ((v1.val <<< 5) &&& 0x1F00) ≤ 8160 ∧
    (((v0.val <<< 5) &&& 0x00E0) ||| ((v1.val <<< 5) &&& 0x1F00)) |||
      ((v0.val >>> 3) &&& 0x0010) ≤ 8176 ∧
    ((v1.val <<< 3) &&& 0x0010) ||| ((v2.val <<< 5) &&& 0x01E0) |||
      ((v2.val <<< 4) &&& 0x0E00) ≤ 4080 ∧
    (((v1.val <<< 3) &&& 0x0010) ||| ((v2.val <<< 5) &&& 0x01E0) |||
      ((v2.val <<< 4) &&& 0x0E00)) ||| ((v0.val >>> 3) &&& 0x0008) ≤ 4088 ∧
    ((v0.val <<< 4) &&& 0x0070) ||| ((v1.val <<< 4) &&& 0x0F80) ≤ 4080 ∧
    (((v0.val <<< 4) &&& 0x0070) ||| ((v1.val <<< 4) &&& 0x0F80)) |||
      ((v0.val >>> 4) &&& 0x0008) ≤ 4088 := by
  rw [mf_x_std_bytes, mf_y_std_bytes, mf_x_plus_bytes, byte_shr3_and_10, byte_shr3_and_08,
    byte_shr4_and_08]
  have a0 := bitField_lt v0.val 2 0
  have a1 := bitField_lt v1.val 7 3
  have a2 := bitField_lt v0.val 7 7
  have a3 := bitField_lt v1.val 1 1
  have a4 := bitField_lt v2.val 3 0
  have a5 := bitField_lt v2.val 7 5
  have a6 := bitField_lt v0.val 6 6
  rw [@mul_or_eq_add_of_lt 5 _ (by omega), @mul_or_eq_add_of_lt 4 _ (by omega),
    @mul_or_eq_add_of_lt 4 _ (by omega)]
  omega

/-- C14. For every six-byte packet `b` and slot `i` in `{0, 1}`:
`SS4_STD_MF_X_V2 <= 8160 = SS4_MFPACKET_NO_AX`, `SS4_BTL_MF_X_V2 <= 8176 =
SS4_MFPACKET_NO_AX_BL`, `SS4_STD_MF_Y_V2 <= 4080 = SS4_MFPACKET_NO_AY`,
`SS4_BTL_MF_Y_V2 <= 4088 = SS4_MFPACKET_NO_AY_BL`, `SS4_PLUS_STD_MF_X_V2 <= 4080 =
SS4_PLUS_MFPACKET_NO_AX`, `SS4_PLUS_BTL_MF_X_V2 <= 4088 = SS4_PLUS_MFPACKET_NO_AX_BL`; and
some packet attains all six bounds in the slot. -/
theorem ss4_mf_sentinels_are_maxima (i : Fin 2) :
    (∀ b : Packet,
      SS4_STD_MF_X_V2 b i.val ≤ SS4_MFPACKET_NO_AX ∧
      SS4_BTL_MF_X_V2 b i.val ≤ SS4_MFPACKET_NO_AX_BL ∧
      SS4_STD_MF_Y_V2 b i.val ≤ SS4_MFPACKET_NO_AY ∧
      SS4_BTL_MF_Y_V2 b i.val ≤ SS4_MFPACKET_NO_AY_BL ∧
      SS4_PLUS_STD_MF_X_V2 b i.val ≤ SS4_PLUS_MFPACKET_NO_AX ∧
      SS4_PLUS_BTL_MF_X_V2 b i.val ≤ SS4_PLUS_MFPACKET_NO_AX_BL) ∧
    (∃ b : Packet,
      SS4_STD_MF_X_V2 b i.val = SS4_MFPACKET_NO_AX ∧
      SS4_BTL_MF_X_V2 b i.val = SS4_MFPACKET_NO_AX_BL ∧
      SS4_STD_MF_Y_V2 b i.val = SS4_MFPACKET_NO_AY ∧
      SS4_BTL_MF_Y_V2 b i.val = SS4_MFPACKET_NO_AY_BL ∧
      SS4_PLUS_STD_MF_X_V2 b i.val = SS4_PLUS_MFPACKET_NO_AX ∧
      SS4_PLUS_BTL_MF_X_V2 b i.val = SS4_PLUS_MFPACKET_NO_AX_BL) := by
  constructor
  · intro b
    fin_cases i
    · exact mf_fields_le b.b0 b.b1 b.b2
    · exact mf_fields_le b.b3 b.b4 b.b5
  · refine ⟨⟨0xFF, 0xFF, 0xFF, 0xFF, 0xFF, 0xFF⟩, ?_⟩
    fin_cases i <;> decide

set_option maxRecDepth 100000 in
theorem byte_and_01_shl7 :
    ∀ v : Byte, (v.val &&& 0x01) <<< 7 = 2 ^ 7 * bitField v.val 0 0 := by decide

set_option maxRecDepth 100000 in
theorem byte_and_7F : ∀ v : Byte, v.val &&& 0x7F = bitField v.val 6 0 := by decide

set_option maxRecDepth 100000 in
theorem byte_shr5_and_07 :
    ∀ v : Byte, (v.val >>> 5) &&& 0x07 = bitField v.val 7 5 := by decide

set_option maxRecDepth 100000 in
theorem byte_shr4_and_01 :
    ∀ v : Byte, (v.val >>> 4) &&& 0x01 = bitField v.val 4 4 := by decide

/-- The trackstick magnitude of two bytes: bit 0 of `v0` above the low seven bits of `v1`. -/
theorem ts_bytes (v0 v1 : Byte) :
    ((v0.val &&& 0x01) <<< 7) ||| (v1.val &&& 0x7F) =
      128 * bitField v0.val 0 0 + bitField v1.val 6 0 := by
  rw [byte_and_01_shl7, byte_and_7F]
  have h1 := bitField_lt v1.val 6 0
  rw [@mul_or_eq_add_of_lt 7 _ (by omega)]
  omega

/-- C17. For every six-byte packet `b`: `SS4_TS_X_V2(b) = 128*b0[0] + b1[6:0]` lies in
`[0, 255]`, `SS4_TS_Y_V2(b) = -(128*b3[0] + b2[6:0])` lies in `[-255, 0]`, and
`SS4_TS_Z_V2(b) = b4[6:0]` lies in `[0, 127]`. -/
theorem ss4_trackstick_fields (b : Packet) :
    (SS4_TS_X_V2 b =
        128 * (bitField (b.get 0) 0 0 : Int) + (bitField (b.get 1) 6 0 : Int) ∧
      0 ≤ SS4_TS_X_V2 b ∧ SS4_TS_X_V2 b ≤ 255) ∧
    (SS4_TS_Y_V2 b =
        -(128 * (bitField (b.get 3) 0 0 : Int) + (bitField (b.get 2) 6 0 : Int)) ∧
      -255 ≤ SS4_TS_Y_V2 b ∧ SS4_TS_Y_V2 b ≤ 0) ∧
    (SS4_TS_Z_V2 b = (bitField (b.get 4) 6 0 : Int) ∧
      0 ≤ SS4_TS_Z_V2 b ∧ SS4_TS_Z_V2 b ≤ 127) := by
  have hx : SS4_TS_X_V2 b =
      ((128 * bitField b.b0.val 0 0 + bitField b.b1.val 6 0 : Nat) : Int) := by
    simp only [SS4_TS_X_V2, Packet.get]
    rw [ts_bytes]
  have hy : SS4_TS_Y_V2 b =
      -((128 * bitField b.b3.val 0 0 + bitField b.b2.val 6 0 : Nat) : Int) := by
    simp only [SS4_TS_Y_V2, Packet.get]
    rw [ts_bytes]
  have hz : SS4_TS_Z_V2 b = ((bitField b.b4.val 6 0 : Nat) : Int) := by
    simp only [SS4_TS_Z_V2, Packet.get]
    rw [byte_and_7F]
  have a0 := bitField_lt b.b0.val 0 0
  have a1 := bitField_lt b.b1.val 6 0
  have a2 := bitField_lt b.b3.val 0 0
  have a3 := bitField_lt b.b2.val 6 0
  have a4 := bitField_lt b.b4.val 6 0
  rw [hx, hy, hz]
  simp only [Packet.get]
  refine ⟨⟨?_, ?_, ?_⟩, ⟨?_, ?_, ?_⟩, ⟨?_, ?_, ?_⟩⟩ <;> first | trivial | omega

/-- The one-finger X field of the bytes it reads. -/
theorem one_finger_x_bytes (v0 v1 v2 : Byte) :
    (v0.val &&& 0x0007) ||| ((v1.val <<< 3) &&& 0x0078) ||| ((v1.val <<< 2) &&& 0x0380) |||
        ((v2.val <<< 5) &&& 0x1C00) =
      bitField v0.val 2 0 + 2 ^ 3 * bitField v1.val 3 0 + 2 ^ 7 * bitField v1.val 7 5 +
        2 ^ 10 * bitField v2.val 7 5 := by
  rw [byte_and_07, byte_shl3_and_78, byte_shl2_and_380, byte_shl5_and_1C00]
  have h0 := bitField_lt v0.val 2 0
  have h1 := bitField_lt v1.val 3 0
  have h2 := bitField_lt v1.val 7 5
  rw [@or_eq_add_of_lt 3 _ (by omega), @or_eq_add_of_lt 7 _ (by omega),
    @or_eq_add_of_lt 10 _ (by omega)]

/-- The one-finger Y field of the bytes it reads. -/
theorem one_finger_y_bytes (v2 v3 v4 : Byte) :
    (v2.val &&& 0x000F) ||| ((v3.val >>> 2) &&& 0x0030) ||| ((v4.val <<< 6) &&& 0x03C0) |||
        ((v4.val <<< 5) &&& 0x0C00) =
      bitField v2.val 3 0 + 2 ^ 4 * bitField v3.val 7 6 + 2 ^ 6 * bitField v4.val 3 0 +
        2 ^ 10 * bitField v4.val 6 5 := by
  rw [byte_and_0F, byte_shr2_and_30, byte_shl6_and_3C0, byte_shl5_and_C00]
  have h0 := bitField_lt v2.val 3 0
  have h1 := bitField_lt v3.val 7 6
  have h2 := bitField_lt v4.val 3 0
  rw [@or_eq_add_of_lt 4 _ (by omega), @or_eq_add_of_lt 6 _ (by omega),
    @or_eq_add_of_lt 10 _ (by omega)]

/-- The one-finger Z field of the bytes it reads. -/
theorem one_finger_z_bytes (v4 v5 : Byte) :
    (v5.val &&& 0x0F) ||| ((v5.val >>> 1) &&& 0x70) ||| (v4.val &&& 0x80) =
      bitField v5.val 3 0 + 2 ^ 4 * bitField v5.val 7 5 + 2 ^ 7 * bitField v4.val 7 7 := by
  rw [byte_and_0F, byte_shr1_and_70, byte_and_80]
  have h0 := bitField_lt v5.val 3 0
  have h1 := bitField_lt v5.val 7 5
  rw [@or_eq_add_of_lt 4 _ (by omega), @or_eq_add_of_lt 7 _ (by omega)]

/-- A packet that carries given one-finger fields, each given by its pieces: `x0 x1 x2 x3`
are the bits 2-0, 6-3, 9-7 and 12-10 of X, `y0 y1 y2 y3` the bits 3-0, 5-4, 9-6 and 11-10 of
Y, `z0 z1 z2` the bits 3-0, 6-4 and 7 of Z, `l` is the LFB bit. -/
theorem one_finger_encode_pieces (x0 x1 x2 x3 y0 y1 y2 y3 z0 z1 z2 btn l : Nat)
    (hx0 : x0 < 8) (hx1 : x1 < 16) (hx2 : x2 < 8) (hx3 : x3 < 8)
    (hy0 : y0 < 16) (hy1 : y1 < 4) (hy2 : y2 < 16) (hy3 : y3 < 4)
    (hz0 : z0 < 16) (hz1 : z1 < 8) (hz2 : z2 < 2) (hbtn : btn < 8) (hl : l ≤ 1) :
    ∃ b : Packet, SS4_1F_X_V2 b = x0 + 8 * x1 + 128 * x2 + 1024 * x3 ∧
      SS4_1F_Y_V2 b = y0 + 16 * y1 + 64 * y2 + 1024 * y3 ∧
      SS4_1F_Z_V2 b = z0 + 16 * z1 + 128 * z2 ∧
      SS4_BTN_V2 b = btn ∧ ((b.get 2) >>> 4) &&& 0x01 = l := by
  obtain ⟨v0, e0⟩ : ∃ v : Byte, v.val = x0 + 32 * btn := ⟨⟨_, by omega⟩, rfl⟩
  obtain ⟨v1, e1⟩ : ∃ v : Byte, v.val = x1 + 32 * x2 := ⟨⟨_, by omega⟩, rfl⟩
  obtain ⟨v2, e2⟩ : ∃ v : Byte, v.val = y0 + 16 * l + 32 * x3 := ⟨⟨_, by omega⟩, rfl⟩
  obtain ⟨v3, e3⟩ : ∃ v : Byte, v.val = 64 * y1 := ⟨⟨_, by omega⟩, rfl⟩
  obtain ⟨v4, e4⟩ : ∃ v : Byte, v.val = y2 + 32 * y3 + 128 * z2 :=
    ⟨⟨_, by omega⟩, rfl⟩
  obtain ⟨v5, e5⟩ : ∃ v : Byte, v.val = z0 + 32 * z1 := ⟨⟨_, by omega⟩, rfl⟩
  refine ⟨⟨v0, v1, v2, v3, v4, v5⟩, ?_, ?_, ?_, ?_, ?_⟩
  · simp only [SS4_1F_X_V2, Packet.get]
    rw [one_finger_x_bytes]
    simp only [bitField, e0, e1, e2]
    omega
  · simp only [SS4_1F_Y_V2, Packet.get]
    rw [one_finger_y_bytes]
    simp only [bitField, e2, e3, e4]
    omega
  · simp only [SS4_1F_Z_V2, Packet.get]
    rw [one_finger_z_bytes]
    simp only [bitField, e4, e5]
    omega
  · simp only [SS4_BTN_V2, Packet.get, SS4_MASK_NORMAL_BUTTONS]
    rw [byte_shr5_and_07]
    simp only [bitField, e0]
    omega
  · simp only [Packet.get]
    rw [byte_shr4_and_01]
    simp only [bitField, e2]
    omega

/-- A packet that carries given one-finger field values; `l` is the LFB bit. -/
theorem one_finger_encode (x y z btn l : Nat) (hx : x < 2 ^ 13) (hy : y < 2 ^ 12)
    (hz : z < 2 ^ 8) (hbtn : btn < 8) (hl : l ≤ 1) :
    ∃ b : Packet, SS4_1F_X_V2 b = x ∧ SS4_1F_Y_V2 b = y ∧ SS4_1F_Z_V2 b = z ∧
      SS4_BTN_V2 b = btn ∧ ((b.get 2) >>> 4) &&& 0x01 = l := by
  obtain ⟨b, h1, h2, h3, h4, h5⟩ := one_finger_encode_pieces
    (x % 8) (x / 8 % 16) (x / 128 % 8) (x / 1024) (y % 16) (y / 16 % 4) (y / 64 % 16)
    (y / 1024) (z % 16) (z / 16 % 8) (z / 128) btn l
    (by omega) (by omega) (by omega) (by omega) (by omega) (by omega) (by omega) (by omega)
    (by omega) (by omega) (by omega) hbtn hl
  refine ⟨b, ?_, ?_, ?_, h4, h5⟩
  · rw [h1]; omega
  · rw [h2]; omega
  · rw [h3]; omega

/-- C15. The SS4 one-finger fields are range-exact and independent: for every six-byte
packet `X = SS4_1F_X_V2 < 2^13`, `Y = SS4_1F_Y_V2 < 2^12`, `Z = SS4_1F_Z_V2 < 2^8` and
`SS4_BTN_V2 < 8`; and for every `x < 2^13`, `y < 2^12`, `z < 2^8`, `btn < 8` and boolean
`lfb` there is a six-byte packet whose decoded `(X, Y, Z, SS4_BTN_V2, SS4_1F_LFB_V2)` is
exactly `(x, y, z, btn, lfb)`. -/
theorem ss4_one_finger_independent :
    (∀ b : Packet, SS4_1F_X_V2 b < 2 ^ 13 ∧ SS4_1F_Y_V2 b < 2 ^ 12 ∧
      SS4_1F_Z_V2 b < 2 ^ 8 ∧ SS4_BTN_V2 b < 8) ∧
    (∀ (x : Fin (2 ^ 13)) (y : Fin (2 ^ 12)) (z : Fin (2 ^ 8)) (btn : Fin 8) (lfb : Bool),
      ∃ b : Packet, SS4_1F_X_V2 b = x.val ∧ SS4_1F_Y_V2 b = y.val ∧
        SS4_1F_Z_V2 b = z.val ∧ SS4_BTN_V2 b = btn.val ∧ SS4_1F_LFB_V2 b = lfb) := by
  constructor
  · intro b
    have a0 := bitField_lt b.b0.val 2 0
    have a1 := bitField_lt b.b1.val 3 0
    have a2 := bitField_lt b.b1.val 7 5
    have a3 := bitField_lt b.b2.val 7 5
    have a4 := bitField_lt b.b2.val 3 0
    have a5 := bitField_lt b.b3.val 7 6
    have a6 := bitField_lt b.b4.val 3 0
    have a7 := bitField_lt b.b4.val 6 5
    have a8 := bitField_lt b.b5.val 3 0
    have a9 := bitField_lt b.b5.val 7 5
    have a10 := bitField_lt b.b4.val 7 7
    have a11 := bitField_lt b.b0.val 7 5
    simp only [SS4_1F_X_V2, SS4_1F_Y_V2, SS4_1F_Z_V2, SS4_BTN_V2, SS4_MASK_NORMAL_BUTTONS,
      Packet.get]
    rw [one_finger_x_bytes, one_finger_y_bytes, one_finger_z_bytes, byte_shr5_and_07]
    refine ⟨?_, ?_, ?_, ?_⟩ <;> omega
  · intro x y z btn lfb
    cases lfb with
    | false =>
      obtain ⟨b, h1, h2, h3, h4, h5⟩ :=
        one_finger_encode x.val y.val z.val btn.val 0 x.isLt y.isLt z.isLt btn.isLt
          (by decide)
      exact ⟨b, h1, h2, h3, h4, by simp [SS4_1F_LFB_V2, h5]⟩
    | true =>
      obtain ⟨b, h1, h2, h3, h4, h5⟩ :=
        one_finger_encode x.val y.val z.val btn.val 1 x.isLt y.isLt z.isLt btn.isLt
          (by decide)
      exact ⟨b, h1, h2, h3, h4, by simp [SS4_1F_LFB_V2, h5]⟩

end Alps
